import Mathlib

/-!
Verification development for the people-tracking system
(`counter.py` and `people_count_track.py`).

The Python classes `PeopleCounter` and `ImprovedTracker` are shallowly
embedded.  Python dictionaries (which preserve insertion order) are
modelled as association lists `List (ℕ × α)`: assignment to an existing
key updates it in place, assignment to a fresh key appends, deletion
removes the entry.  Machine floats are modelled by exact rationals `ℚ`
(the decimal constants 0.7 and 0.3 become 7/10 and 3/10), and Python's
`int(...)` cast is truncation toward zero.

The tracker's matching cost `enhanced_distance` divides a Euclidean
distance (a square root) by a size-similarity factor.  To keep the
embedding executable the cost is represented throughout by its square,
`enhanced_distanceSq = euclidSq / size_sim ^ 2`; squaring is a strictly
monotone bijection on nonnegative reals, so minima, argmins and order
comparisons of costs are unchanged, and the threshold test
`cost ≤ max_distance` of the source becomes
`0 ≤ max_distance ∧ costSq ≤ max_distance ^ 2`
(see `sqrt_le_iff_sq` below for the justification).
-/

/-! ## Association-list primitives (insertion-ordered dictionaries) -/

/-- Keys of an association list, in insertion order (`list(d.keys())`). -/
def alistKeys {α : Type} (l : List (ℕ × α)) : List ℕ := l.map Prod.fst

/-- Dictionary lookup `d.get(k)` / `d[k]`; `none` when the key is absent. -/
def alistGet? {α : Type} (l : List (ℕ × α)) (k : ℕ) : Option α :=
  (l.find? (fun p => p.1 == k)).map Prod.snd

/-- Dictionary assignment `d[k] = v`: update the binding in place when
the key is present, append otherwise (Python dicts preserve insertion
order). -/
def alistSet {α : Type} (l : List (ℕ × α)) (k : ℕ) (v : α) : List (ℕ × α) :=
  match l with
  | [] => [(k, v)]
  | p :: rest => if p.1 = k then (k, v) :: rest else p :: alistSet rest k v

/-- Dictionary deletion `del d[k]`. -/
def alistErase {α : Type} (l : List (ℕ × α)) (k : ℕ) : List (ℕ × α) :=
  match l with
  | [] => []
  | p :: rest => if p.1 = k then alistErase rest k else p :: alistErase rest k

/-! ## Numeric primitives -/

/-- Python's `int(x)` on a real value: truncation toward zero. -/
def truncQ (q : ℚ) : ℤ := if 0 ≤ q then ⌊q⌋ else -⌊-q⌋

/-- Python's `int((a + b) / 2)` on integers `a`, `b`: exact halving then
truncation toward zero, i.e. `Int.tdiv`. -/
def pyHalf (n : ℤ) : ℤ := Int.tdiv n 2

/-- Minimum of a list of rationals (`np.min` over a nonempty row; the
`[]` case is never reached by the tracker, which guards emptiness). -/
def listMinQ : List ℚ → ℚ
  | [] => 0
  | x :: xs => xs.foldl min x

/-- Helper for `argminQ`: scan the tail remembering the best index. -/
def argminAux : List ℚ → ℕ → ℕ → ℚ → ℕ
  | [], _, best, _ => best
  | x :: xs, i, best, bestv =>
    if x < bestv then argminAux xs (i + 1) i x else argminAux xs (i + 1) best bestv

/-- Index of the first minimal element (`np.argmin`). -/
def argminQ : List ℚ → ℕ
  | [] => 0
  | x :: xs => argminAux xs 1 0 x

/-- Stable insertion step for `sortByKey`. -/
def insertByKey (key : ℕ → ℚ) (x : ℕ) : List ℕ → List ℕ
  | [] => [x]
  | y :: ys => if key x ≤ key y then x :: y :: ys else y :: insertByKey key x ys

/-- Stable sort of indices by a rational key (`np.argsort` of the row
minima; ties keep the original order). -/
def sortByKey (key : ℕ → ℚ) (l : List ℕ) : List ℕ := l.foldr (insertByKey key) []

/-! ## PeopleCounter (counter.py)

The source stores the line orientation and the line side as the strings
"horizontal"/"vertical" and "above"/"below"/"left"/"right"; the only
operations ever applied to them are equality tests, so they are modelled
by two small enumerations. -/

/-- Line orientation (`direction` field; the source tests equality with
the string "horizontal" and treats every other value as vertical). -/
inductive Direction : Type
  | horizontal
  | vertical
deriving DecidableEq, Repr

/-- Which side of the counting line a centroid is on. -/
inductive Side : Type
  | above
  | below
  | left
  | right
deriving DecidableEq, Repr

/-- State of `PeopleCounter` (counter.py, lines 3–11). -/
structure PeopleCounter : Type where
  line_position : ℤ
  direction : Direction
  count_in : ℕ
  count_out : ℕ
  track_memory : List (ℕ × ℤ)
  track_states : List (ℕ × Side)
  max_capacity : ℤ
deriving DecidableEq, Repr

/-- Constructor defaults of `PeopleCounter.__init__`. -/
def initPeopleCounter (line_position : ℤ) (direction : Direction) (max_capacity : ℤ) :
    PeopleCounter :=
  { line_position := line_position
    direction := direction
    count_in := 0
    count_out := 0
    track_memory := []
    track_states := []
    max_capacity := max_capacity }

/-- The `PeopleCounter.check_crossing` method (counter.py, lines 13–59).
The bounding box is `(x1, y1, x2, y2)`; the centroid is computed with
Python's truncating `int((x1+x2)/2)`.  A state transition returns the
new counter state (the source mutates `self`). -/
def check_crossing (st : PeopleCounter) (track_id : ℕ) (bbox : ℤ × ℤ × ℤ × ℤ) :
    PeopleCounter :=
  let cx := pyHalf (bbox.1 + bbox.2.2.1)
  let cy := pyHalf (bbox.2.1 + bbox.2.2.2)
  let current_pos := if st.direction = Direction.horizontal then cy else cx
  if track_id ∉ alistKeys st.track_memory then
    -- first time seeing this track: just store position and initial side
    { st with
      track_memory := alistSet st.track_memory track_id current_pos
      track_states := alistSet st.track_states track_id
        (if st.direction = Direction.horizontal then
          (if cy < st.line_position then Side.above else Side.below)
         else
          (if cx < st.line_position then Side.left else Side.right)) }
  else
    let prev_state := alistGet? st.track_states track_id
    if st.direction = Direction.horizontal then
      let current_state := if cy < st.line_position then Side.above else Side.below
      let st1 :=
        if prev_state = some Side.above ∧ current_state = Side.below then
          { st with count_in := st.count_in + 1 }
        else if prev_state = some Side.below ∧ current_state = Side.above then
          { st with count_out := st.count_out + 1 }
        else st
      { st1 with
        track_memory := alistSet st1.track_memory track_id current_pos
        track_states := alistSet st1.track_states track_id current_state }
    else
      let current_state := if cx < st.line_position then Side.left else Side.right
      let st1 :=
        if prev_state = some Side.left ∧ current_state = Side.right then
          { st with count_in := st.count_in + 1 }
        else if prev_state = some Side.right ∧ current_state = Side.left then
          { st with count_out := st.count_out + 1 }
        else st
      { st1 with
        track_memory := alistSet st1.track_memory track_id current_pos
        track_states := alistSet st1.track_states track_id current_state }

/-- The `PeopleCounter.cleanup_lost_tracks` method (counter.py, lines
61–68): delete the memory of every identity that is not active. -/
def cleanup_lost_tracks (st : PeopleCounter) (active_track_ids : List ℕ) : PeopleCounter :=
  let lost := (alistKeys st.track_memory).filter (fun k => decide (k ∉ active_track_ids))
  { st with
    track_memory := st.track_memory.filter (fun p => decide (p.1 ∉ lost))
    track_states := st.track_states.filter (fun p => decide (p.1 ∉ lost)) }

/-- The `PeopleCounter.get_counts` method (counter.py, lines 70–71). -/
def get_counts (st : PeopleCounter) : ℕ × ℕ := (st.count_in, st.count_out)

/-- The `PeopleCounter.get_current_inside` method (counter.py, lines
73–74): `max(0, count_in - count_out)`. -/
def get_current_inside (st : PeopleCounter) : ℤ :=
  max 0 ((st.count_in : ℤ) - (st.count_out : ℤ))

/-- The `PeopleCounter.is_over_capacity` method (counter.py, lines
76–78): returns the pair `(current_inside > max_capacity, current_inside)`. -/
def is_over_capacity (st : PeopleCounter) : Bool × ℤ :=
  (decide (get_current_inside st > st.max_capacity), get_current_inside st)

/-- The `PeopleCounter.reset_counts` method (counter.py, lines 80–85). -/
def reset_counts (st : PeopleCounter) : PeopleCounter :=
  { st with count_in := 0, count_out := 0, track_memory := [], track_states := [] }

/-- Side of the line a centroid `(cx, cy)` is on, as the specification
describes it: above/below of `line_position` for a horizontal line,
left/right for a vertical one.  The same expression appears twice in
`check_crossing` (counter.py, lines 24–27 and 35/47). -/
def sideOf (direction : Direction) (line_position : ℤ) (cx cy : ℤ) : Side :=
  if direction = Direction.horizontal then
    (if cy < line_position then Side.above else Side.below)
  else
    (if cx < line_position then Side.left else Side.right)

/-! ## ImprovedTracker (people_count_track.py) -/

/-- State of `ImprovedTracker` (people_count_track.py, lines 12–22).
Centroids and bounding-box sizes are integer pairs, velocities are
rational pairs (they are exponential moving averages). -/
structure Tracker : Type where
  next_object_id : ℕ
  objects : List (ℕ × (ℤ × ℤ))
  disappeared : List (ℕ × ℕ)
  max_disappeared : ℕ
  max_distance : ℚ
  object_history : List (ℕ × List (ℤ × ℤ))
  object_velocities : List (ℕ × (ℚ × ℚ))
  object_sizes : List (ℕ × (ℤ × ℤ))
deriving DecidableEq, Repr

/-- Constructor of `ImprovedTracker` (defaults `max_disappeared=60`,
`max_distance=150`). -/
def initTracker (max_disappeared : ℕ) (max_distance : ℚ) : Tracker :=
  { next_object_id := 0
    objects := []
    disappeared := []
    max_disappeared := max_disappeared
    max_distance := max_distance
    object_history := []
    object_velocities := []
    object_sizes := [] }

/-- The `ImprovedTracker.register` method (people_count_track.py, lines
24–31).  The caller always passes an explicit size (the `None` default
of the source is only used by dead code). -/
def register (st : Tracker) (centroid : ℤ × ℤ) (bbox_size : ℤ × ℤ) : Tracker :=
  { st with
    objects := alistSet st.objects st.next_object_id centroid
    disappeared := alistSet st.disappeared st.next_object_id 0
    object_history := alistSet st.object_history st.next_object_id [centroid]
    object_velocities := alistSet st.object_velocities st.next_object_id (0, 0)
    object_sizes := alistSet st.object_sizes st.next_object_id bbox_size
    next_object_id := st.next_object_id + 1 }

/-- The `ImprovedTracker.deregister` method (people_count_track.py,
lines 33–39): delete the identity from all five dictionaries. -/
def deregister (st : Tracker) (object_id : ℕ) : Tracker :=
  { st with
    objects := alistErase st.objects object_id
    disappeared := alistErase st.disappeared object_id
    object_history := alistErase st.object_history object_id
    object_velocities := alistErase st.object_velocities object_id
    object_sizes := alistErase st.object_sizes object_id }

/-- The `ImprovedTracker.predict_position` method (people_count_track.py,
lines 41–53).  The source raises `KeyError` when the identity is not in
`objects`; every caller guarantees membership, so the lookup defaults
to `(0, 0)` here.  The `int(...)` casts of the source truncate. -/
def predict_position (st : Tracker) (object_id : ℕ) : ℤ × ℤ :=
  match alistGet? st.object_velocities object_id with
  | none => (alistGet? st.objects object_id).getD (0, 0)
  | some velocity =>
    let current_pos := (alistGet? st.objects object_id).getD (0, 0)
    (truncQ ((current_pos.1 : ℚ) + velocity.1), truncQ ((current_pos.2 : ℚ) + velocity.2))

/-- The `ImprovedTracker.calculate_velocity` method
(people_count_track.py, lines 55–69): displacement from the last
history entry, smoothed by `0.7 * old + 0.3 * new` when a previous
velocity exists. -/
def calculate_velocity (st : Tracker) (object_id : ℕ) (new_position : ℤ × ℤ) : ℚ × ℚ :=
  match alistGet? st.object_history object_id with
  | none => (0, 0)
  | some hist =>
    if hist.length > 0 then
      let old_pos := hist.getLastD (0, 0)
      let velocity_x : ℚ := (new_position.1 : ℚ) - (old_pos.1 : ℚ)
      let velocity_y : ℚ := (new_position.2 : ℚ) - (old_pos.2 : ℚ)
      match alistGet? st.object_velocities object_id with
      | some old_vel =>
        (7/10 * old_vel.1 + 3/10 * velocity_x, 7/10 * old_vel.2 + 3/10 * velocity_y)
      | none => (velocity_x, velocity_y)
    else (0, 0)

/-- The `ImprovedTracker.size_similarity` method (people_count_track.py,
lines 71–87): area overlap fraction, defaulting to 1 for degenerate
sizes. -/
def size_similarity (size1 size2 : ℤ × ℤ) : ℚ :=
  if size1 = (0, 0) ∨ size2 = (0, 0) then 1
  else
    let area1 := size1.1 * size1.2
    let area2 := size2.1 * size2.2
    if area1 = 0 ∨ area2 = 0 then 1
    else ((min area1 area2 : ℤ) : ℚ) / ((max area1 area2 : ℤ) : ℚ)

/-- Squared Euclidean distance between two integer points, as a
rational. -/
def euclidSq (p q : ℤ × ℤ) : ℚ := (((p.1 - q.1) ^ 2 + (p.2 - q.2) ^ 2 : ℤ) : ℚ)

/-- Square of the `ImprovedTracker.enhanced_distance` method
(people_count_track.py, lines 89–107).  The source computes
`np.linalg.norm(predicted - centroid) / size_sim`; its square is
`euclidSq / size_sim ^ 2`, which is exact rational arithmetic. -/
def enhanced_distanceSq (st : Tracker) (obj_id : ℕ) (detection_centroid : ℤ × ℤ)
    (detection_size : ℤ × ℤ) : ℚ :=
  let predicted_pos := predict_position st obj_id
  let obj_size := (alistGet? st.object_sizes obj_id).getD (0, 0)
  let size_sim := size_similarity obj_size detection_size
  euclidSq predicted_pos detection_centroid / size_sim ^ 2

/-- Size similarity as the specification words it: 1 when either size
has a zero width or height, otherwise `min(area1, area2) / max(area1,
area2)`.  Compared against the source's `size_similarity` in claim C4. -/
def spec_size_similarity (size1 size2 : ℤ × ℤ) : ℚ :=
  if size1.1 = 0 ∨ size1.2 = 0 ∨ size2.1 = 0 ∨ size2.2 = 0 then 1
  else ((min (size1.1 * size1.2) (size2.1 * size2.2) : ℤ) : ℚ) /
       ((max (size1.1 * size1.2) (size2.1 * size2.2) : ℤ) : ℚ)

/-- Body of the successful-match branch of `ImprovedTracker.update`
(people_count_track.py, lines 153–178): store the new centroid, reset
the disappeared count, recompute the velocity (on the state whose
centroid was already overwritten, exactly as the source does), append
to the bounded history and store the new size. -/
def matchStep (st : Tracker) (object_id : ℕ) (new_centroid : ℤ × ℤ) (new_size : ℤ × ℤ) :
    Tracker :=
  let st1 := { st with
    objects := alistSet st.objects object_id new_centroid
    disappeared := alistSet st.disappeared object_id 0 }
  let st2 := { st1 with
    object_velocities :=
      alistSet st1.object_velocities object_id (calculate_velocity st1 object_id new_centroid) }
  let hist := (alistGet? st2.object_history object_id).getD []
  let hist1 := hist ++ [new_centroid]
  let hist2 := if hist1.length > 10 then hist1.drop 1 else hist1
  { st2 with
    object_history := alistSet st2.object_history object_id hist2
    object_sizes := alistSet st2.object_sizes object_id new_size }

/-- One disappearance tick for one identity
(people_count_track.py, lines 116–119 and 186–191): increment the
disappeared count and deregister once it exceeds `max_disappeared`. -/
def ageStep (st : Tracker) (object_id : ℕ) : Tracker :=
  let d := (alistGet? st.disappeared object_id).getD 0 + 1
  let st1 := { st with disappeared := alistSet st.disappeared object_id d }
  if d > st.max_disappeared then deregister st1 object_id else st1

/-- Age a snapshot list of identities, one tick each. -/
def ageIds (st : Tracker) (ids : List ℕ) : Tracker := ids.foldl ageStep st

/-- Greedy assignment step (people_count_track.py, lines 149–178,
control skeleton only): skip consumed rows/columns, accept a pair when
its cost is within `max_distance`.  The accumulator is
(matches, used rows, used columns).  The source's test
`distances[row, col] <= max_distance` on the real-valued cost is
`0 ≤ max_distance ∧ costSq ≤ max_distance ^ 2` on squared costs. -/
def greedyStep (cost : ℕ → ℕ → ℚ) (maxd : ℚ)
    (acc : List (ℕ × ℕ) × List ℕ × List ℕ) (rc : ℕ × ℕ) :
    List (ℕ × ℕ) × List ℕ × List ℕ :=
  if rc.1 ∈ acc.2.1 ∨ rc.2 ∈ acc.2.2 then acc
  else if 0 ≤ maxd ∧ cost rc.1 rc.2 ≤ maxd ^ 2 then
    (acc.1 ++ [rc], acc.2.1 ++ [rc.1], acc.2.2 ++ [rc.2])
  else acc

/-- The list of (row, column) pairs the greedy loop accepts. -/
def greedyAssign (cost : ℕ → ℕ → ℚ) (maxd : ℚ) (pairs : List (ℕ × ℕ)) : List (ℕ × ℕ) :=
  (pairs.foldl (greedyStep cost maxd) ([], [], [])).1

/-- Row identities of `ImprovedTracker.update`:
`object_ids = list(self.objects.keys())` (people_count_track.py, line 132). -/
def updateObjectIds (st : Tracker) : List ℕ := alistKeys st.objects

/-- Squared cost matrix of `ImprovedTracker.update`
(people_count_track.py, lines 135–139), indexed by row (existing
identity) and column (detection). -/
def updateCost (st : Tracker) (dets : List ((ℤ × ℤ) × (ℤ × ℤ))) (i j : ℕ) : ℚ :=
  enhanced_distanceSq st ((updateObjectIds st).getD i 0)
    ((dets.map Prod.fst).getD j (0, 0)) ((dets.map Prod.snd).getD j (0, 0))

/-- Row minima `distances.min(axis=1)` (people_count_track.py, line 142). -/
def updateRowMin (st : Tracker) (dets : List ((ℤ × ℤ) × (ℤ × ℤ))) (i : ℕ) : ℚ :=
  listMinQ ((List.range dets.length).map (updateCost st dets i))

/-- Row processing order `rows = distances.min(axis=1).argsort()`
(people_count_track.py, line 142). -/
def updateRows (st : Tracker) (dets : List ((ℤ × ℤ) × (ℤ × ℤ))) : List ℕ :=
  sortByKey (updateRowMin st dets) (List.range (updateObjectIds st).length)

/-- The pairs fed to the greedy loop:
`cols = distances.argmin(axis=1)[rows]; zip(rows, cols)`
(people_count_track.py, lines 143–149). -/
def updatePairs (st : Tracker) (dets : List ((ℤ × ℤ) × (ℤ × ℤ))) : List (ℕ × ℕ) :=
  (updateRows st dets).map
    (fun r => (r, argminQ ((List.range dets.length).map (updateCost st dets r))))

/-- The accepted greedy matches of one `update` call. -/
def updateAssigns (st : Tracker) (dets : List ((ℤ × ℤ) × (ℤ × ℤ))) : List (ℕ × ℕ) :=
  greedyAssign (updateCost st dets) st.max_distance (updatePairs st dets)

/-- Apply the match branch to every accepted pair, in greedy order
(people_count_track.py, lines 149–178).  The cost matrix and
`object_ids` are the ones computed before the loop, exactly as in the
source. -/
def applyMatches (st : Tracker) (dets : List ((ℤ × ℤ) × (ℤ × ℤ))) : Tracker :=
  (updateAssigns st dets).foldl
    (fun s rc =>
      matchStep s ((updateObjectIds st).getD rc.1 0)
        ((dets.map Prod.fst).getD rc.2 (0, 0)) ((dets.map Prod.snd).getD rc.2 (0, 0)))
    st

/-- Unmatched rows `set(range(D.shape[0])) - used_row_indices`
(people_count_track.py, line 181), iterated in ascending order. -/
def updateUnusedRows (st : Tracker) (dets : List ((ℤ × ℤ) × (ℤ × ℤ))) : List ℕ :=
  (List.range (updateObjectIds st).length).filter
    (fun r => decide (r ∉ (updateAssigns st dets).map Prod.fst))

/-- Unmatched columns `set(range(D.shape[1])) - used_col_indices`
(people_count_track.py, line 182), iterated in ascending order. -/
def updateUnusedCols (st : Tracker) (dets : List ((ℤ × ℤ) × (ℤ × ℤ))) : List ℕ :=
  (List.range dets.length).filter
    (fun c => decide (c ∉ (updateAssigns st dets).map Prod.snd))

/-- The `ImprovedTracker.update` method (people_count_track.py, lines
109–197).  Input: a list of `(centroid, bbox_size)` pairs.  Zero
detections age every identity; zero existing identities register every
detection; otherwise the greedy matching runs, and then either the
unmatched rows age (when identities are at least as many as
detections) or the unmatched columns are registered (when detections
are strictly more). -/
def update (st : Tracker) (dets : List ((ℤ × ℤ) × (ℤ × ℤ))) : Tracker :=
  if dets = [] then
    ageIds st (alistKeys st.disappeared)
  else if st.objects = [] then
    dets.foldl (fun s det => register s det.1 det.2) st
  else if (updateObjectIds st).length ≥ dets.length then
    ageIds (applyMatches st dets)
      ((updateUnusedRows st dets).map (fun r => (updateObjectIds st).getD r 0))
  else
    (updateUnusedCols st dets).foldl
      (fun s c =>
        register s ((dets.map Prod.fst).getD c (0, 0)) ((dets.map Prod.snd).getD c (0, 0)))
      (applyMatches st dets)

/-- Well-formedness invariant of a tracker state: the five per-identity
dictionaries have the same keys in the same order, the keys are
distinct, and every key is below `next_object_id`. -/
def TrackerWF (st : Tracker) : Prop :=
  alistKeys st.disappeared = alistKeys st.objects ∧
  alistKeys st.object_history = alistKeys st.objects ∧
  alistKeys st.object_velocities = alistKeys st.objects ∧
  alistKeys st.object_sizes = alistKeys st.objects ∧
  (alistKeys st.objects).Nodup ∧
  ∀ k ∈ alistKeys st.objects, k < st.next_object_id

instance (st : Tracker) : Decidable (TrackerWF st) := by
  unfold TrackerWF
  infer_instance

/-- A concrete one-identity tracker state used by witnesses and
counterexamples: identity 0 at the origin with zero velocity, a
10 by 10 bounding box, and the default thresholds. -/
def exampleTracker : Tracker :=
  { next_object_id := 1, objects := [(0, ((0 : ℤ), (0 : ℤ)))], disappeared := [(0, 0)],
    max_disappeared := 60, max_distance := 150,
    object_history := [(0, [((0 : ℤ), (0 : ℤ))])],
    object_velocities := [(0, ((0 : ℚ), (0 : ℚ)))],
    object_sizes := [(0, ((10 : ℤ), (10 : ℤ)))] }

/-! ## Lemmas about the association-list primitives -/

theorem alistKeys_nil {α : Type} : alistKeys ([] : List (ℕ × α)) = [] := rfl

theorem alistKeys_cons {α : Type} (p : ℕ × α) (l : List (ℕ × α)) :
    alistKeys (p :: l) = p.1 :: alistKeys l := rfl

theorem alistGet?_nil {α : Type} (k : ℕ) : alistGet? ([] : List (ℕ × α)) k = none := rfl

theorem alistGet?_cons {α : Type} (p : ℕ × α) (l : List (ℕ × α)) (k : ℕ) :
    alistGet? (p :: l) k = if p.1 = k then some p.2 else alistGet? l k := by
  by_cases h : p.1 = k <;>
    simp [alistGet?, List.find?_cons_of_pos, List.find?_cons_of_neg, h]

theorem alistGet?_eq_none_iff {α : Type} (l : List (ℕ × α)) (k : ℕ) :
    alistGet? l k = none ↔ k ∉ alistKeys l := by
  induction l with
  | nil => simp [alistGet?_nil, alistKeys_nil]
  | cons p l ih =>
    by_cases h : p.1 = k
    · simp [alistGet?_cons, alistKeys_cons, h]
    · simp [alistGet?_cons, alistKeys_cons, h, ih,
        (show ¬k = p.1 from fun hh => h hh.symm)]

theorem mem_alistKeys_of_get {α : Type} {l : List (ℕ × α)} {k : ℕ} {v : α}
    (h : alistGet? l k = some v) : k ∈ alistKeys l := by
  by_contra hmem
  rw [← alistGet?_eq_none_iff] at hmem
  rw [h] at hmem
  exact Option.noConfusion hmem

theorem alistGet?_isSome_of_mem {α : Type} {l : List (ℕ × α)} {k : ℕ}
    (h : k ∈ alistKeys l) : (alistGet? l k).isSome := by
  cases hg : alistGet? l k with
  | none => exact absurd ((alistGet?_eq_none_iff l k).mp hg) (by simpa using h)
  | some v => rfl

theorem alistGet?_set_self {α : Type} (l : List (ℕ × α)) (k : ℕ) (v : α) :
    alistGet? (alistSet l k v) k = some v := by
  induction l with
  | nil => simp [alistSet, alistGet?_cons]
  | cons p l ih =>
    by_cases h : p.1 = k <;> simp [alistSet, alistGet?_cons, h, ih]

theorem alistGet?_set_ne {α : Type} (l : List (ℕ × α)) (k j : ℕ) (v : α) (h : j ≠ k) :
    alistGet? (alistSet l k v) j = alistGet? l j := by
  induction l with
  | nil => simp [alistSet, alistGet?_cons, alistGet?_nil, Ne.symm h]
  | cons p l ih =>
    by_cases hp : p.1 = k
    · have hj : ¬k = j := fun hh => h hh.symm
      have hpj : ¬p.1 = j := fun hh => h (hh ▸ hp)
      simp [alistSet, alistGet?_cons, hp, hj, hpj]
    · simp [alistSet, alistGet?_cons, hp, ih]

theorem alistKeys_set {α : Type} (l : List (ℕ × α)) (k : ℕ) (v : α) :
    alistKeys (alistSet l k v) =
      if k ∈ alistKeys l then alistKeys l else alistKeys l ++ [k] := by
  induction l with
  | nil => simp [alistSet, alistKeys]
  | cons p l ih =>
    by_cases h : p.1 = k
    · simp [alistSet, alistKeys_cons, h]
    · simp only [alistSet, h, if_false, alistKeys_cons, ih]
      by_cases hmem : k ∈ alistKeys l <;>
        simp [hmem, Ne.symm h, eq_comm]

theorem alistKeys_set_of_mem {α : Type} {l : List (ℕ × α)} {k : ℕ} (v : α)
    (h : k ∈ alistKeys l) : alistKeys (alistSet l k v) = alistKeys l := by
  simp [alistKeys_set, h]

theorem alistGet?_erase_self {α : Type} (l : List (ℕ × α)) (k : ℕ) :
    alistGet? (alistErase l k) k = none := by
  induction l with
  | nil => rfl
  | cons p l ih =>
    by_cases h : p.1 = k <;> simp [alistErase, alistGet?_cons, h, ih]

theorem alistGet?_erase_ne {α : Type} (l : List (ℕ × α)) (k j : ℕ) (h : j ≠ k) :
    alistGet? (alistErase l k) j = alistGet? l j := by
  induction l with
  | nil => rfl
  | cons p l ih =>
    by_cases hp : p.1 = k
    · have hj : ¬k = j := fun hh => h hh.symm
      simp [alistErase, alistGet?_cons, hp, hj, ih]
    · simp [alistErase, alistGet?_cons, hp, ih]

theorem alistKeys_erase {α : Type} (l : List (ℕ × α)) (k : ℕ) :
    alistKeys (alistErase l k) = (alistKeys l).filter (fun j => j != k) := by
  induction l with
  | nil => rfl
  | cons p l ih =>
    by_cases h : p.1 = k <;>
      simp [alistErase, alistKeys_cons, h, ih, List.filter_cons]

theorem alistKeys_erase_nodup {α : Type} (l : List (ℕ × α)) (k : ℕ)
    (h : (alistKeys l).Nodup) : (alistKeys (alistErase l k)).Nodup := by
  rw [alistKeys_erase]
  exact h.filter _

theorem alistKeys_set_nodup {α : Type} (l : List (ℕ × α)) (k : ℕ) (v : α)
    (h : (alistKeys l).Nodup) : (alistKeys (alistSet l k v)).Nodup := by
  rw [alistKeys_set]
  by_cases hmem : k ∈ alistKeys l
  · simpa [hmem] using h
  · simp only [hmem, if_false]
    refine List.Nodup.append h (List.nodup_singleton k) ?_
    intro a ha hb
    rw [List.mem_singleton] at hb
    exact hmem (hb ▸ ha)

theorem alistGet?_filter_not_mem {α : Type} (l : List (ℕ × α)) (L : List ℕ) (k : ℕ) :
    alistGet? (l.filter (fun p => decide (p.1 ∉ L))) k =
      if k ∈ L then none else alistGet? l k := by
  induction l with
  | nil => simp [alistGet?_nil]
  | cons p l ih =>
    rw [List.filter_cons]
    by_cases hP : p.1 ∈ L
    · rw [if_neg (by simp [hP])]
      by_cases hk : p.1 = k
      · subst hk
        rw [ih, if_pos hP, if_pos hP]
      · rw [show alistGet? (p :: l) k = alistGet? l k from by
          rw [alistGet?_cons, if_neg hk]]
        exact ih
    · rw [if_pos (by simpa using hP)]
      rw [alistGet?_cons]
      by_cases hk : p.1 = k
      · subst hk
        rw [if_pos rfl, if_neg hP, alistGet?_cons, if_pos rfl]
      · rw [if_neg hk, ih]
        by_cases hkL : k ∈ L
        · rw [if_pos hkL, if_pos hkL]
        · rw [if_neg hkL, if_neg hkL, alistGet?_cons, if_neg hk]

/-! ## Claims about the PeopleCounter -/

/-- Claim C6: `get_current_inside` returns `max(0, count_in − count_out)`
— in particular it is never negative, and it is 0 whenever `count_out ≥
count_in` — and `is_over_capacity` reports true exactly when that
clamped occupancy strictly exceeds `max_capacity` (it also returns the
occupancy as its second component). -/
theorem claim_C6_occupancy_clamp (st : PeopleCounter) :
    get_current_inside st = max 0 ((st.count_in : ℤ) - (st.count_out : ℤ)) ∧
    0 ≤ get_current_inside st ∧
    ((st.count_in : ℤ) ≤ (st.count_out : ℤ) → get_current_inside st = 0) ∧
    ((is_over_capacity st).1 = true ↔ st.max_capacity < get_current_inside st) ∧
    (is_over_capacity st).2 = get_current_inside st := by
  refine ⟨rfl, le_max_left _ _, fun h => ?_, ?_, rfl⟩
  · rw [get_current_inside, max_eq_left (by omega)]
  · simp [is_over_capacity]

/-- Witness for claim C6 at a concrete state with `count_out > count_in`. -/
theorem claim_C6_witness :
    get_current_inside { line_position := 240, direction := Direction.horizontal,
                         count_in := 2, count_out := 5, track_memory := [],
                         track_states := [], max_capacity := 50 } = 0 :=
  (claim_C6_occupancy_clamp _).2.2.1 (by decide)

/-- Claim C8: `count_in` and `count_out` never decrease across
`check_crossing` and are unchanged by `cleanup_lost_tracks`; only
`reset_counts` sets them back to zero. -/
theorem claim_C8_counts_monotone (st : PeopleCounter) (track_id : ℕ)
    (bbox : ℤ × ℤ × ℤ × ℤ) (active_track_ids : List ℕ) :
    st.count_in ≤ (check_crossing st track_id bbox).count_in ∧
    st.count_out ≤ (check_crossing st track_id bbox).count_out ∧
    (cleanup_lost_tracks st active_track_ids).count_in = st.count_in ∧
    (cleanup_lost_tracks st active_track_ids).count_out = st.count_out ∧
    (reset_counts st).count_in = 0 ∧
    (reset_counts st).count_out = 0 := by
  refine ⟨?_, ?_, rfl, rfl, rfl, rfl⟩ <;>
    · simp only [check_crossing]
      split_ifs <;> simp

/-- Claim C9: `reset_counts` zeroes both counters, empties both
per-identity maps, and is idempotent. -/
theorem claim_C9_reset_idempotent (st : PeopleCounter) :
    reset_counts (reset_counts st) = reset_counts st ∧
    (reset_counts st).count_in = 0 ∧
    (reset_counts st).count_out = 0 ∧
    (reset_counts st).track_memory = [] ∧
    (reset_counts st).track_states = [] :=
  ⟨rfl, rfl, rfl, rfl, rfl⟩

/-- Claim C7: `cleanup_lost_tracks` keeps an identity's stored position
state iff the identity is in the active set, and (when the two maps
have the same key set, which every `PeopleCounter` operation preserves)
likewise for the stored side state; the two counters are untouched. -/
theorem claim_C7_cleanup_exact (st : PeopleCounter) (active_track_ids : List ℕ) (id : ℕ)
    (hkeys : id ∈ alistKeys st.track_memory ↔ id ∈ alistKeys st.track_states) :
    alistGet? (cleanup_lost_tracks st active_track_ids).track_memory id =
      (if id ∈ active_track_ids then alistGet? st.track_memory id else none) ∧
    alistGet? (cleanup_lost_tracks st active_track_ids).track_states id =
      (if id ∈ active_track_ids then alistGet? st.track_states id else none) ∧
    (cleanup_lost_tracks st active_track_ids).count_in = st.count_in ∧
    (cleanup_lost_tracks st active_track_ids).count_out = st.count_out := by
  have hlost : ∀ k, (k ∈ (alistKeys st.track_memory).filter
      (fun k => decide (k ∉ active_track_ids))) ↔
      (k ∈ alistKeys st.track_memory ∧ k ∉ active_track_ids) := by
    intro k
    simp [List.mem_filter]
  refine ⟨?_, ?_, rfl, rfl⟩ <;>
  · simp only [cleanup_lost_tracks]
    rw [alistGet?_filter_not_mem]
    by_cases hact : id ∈ active_track_ids
    · rw [if_neg (fun hc => ((hlost id).mp hc).2 hact), if_pos hact]
    · by_cases hmem : id ∈ alistKeys st.track_memory
      · rw [if_pos ((hlost id).mpr ⟨hmem, hact⟩), if_neg hact]
      · rw [if_neg (fun hc => hmem ((hlost id).mp hc).1), if_neg hact]
        first
        | exact (alistGet?_eq_none_iff _ _).mpr hmem
        | exact (alistGet?_eq_none_iff _ _).mpr (fun hc => hmem (hkeys.mpr hc))

/-- Witness for claim C7: identity 1 is pruned, identity 0 survives. -/
theorem claim_C7_witness :
    alistGet? (cleanup_lost_tracks
      { line_position := 240, direction := Direction.horizontal, count_in := 3,
        count_out := 1, track_memory := [(0, 100), (1, 200)],
        track_states := [(0, Side.above), (1, Side.below)], max_capacity := 50
      }
      [0]).track_states 1 = none :=
  ((claim_C7_cleanup_exact _ [0] 1 (by decide)).2.1).trans (by decide)

/-- Claim C2: for an identity already present in the counter's memory
whose stored side is consistent with the line orientation,
`check_crossing` computes the new side from the bbox centroid
(above/below of `line_position` for a horizontal line, left/right for a
vertical one); if the new side differs from the stored one exactly one
directional counter grows by exactly 1 (`above→below` / `left→right`
increments `count_in`, `below→above` / `right→left` increments
`count_out`); if the side is unchanged both counters are unchanged; and
in both cases the stored side and position are overwritten. -/
theorem claim_C2_check_crossing_transition (st : PeopleCounter) (track_id : ℕ)
    (bbox : ℤ × ℤ × ℤ × ℤ) (s : Side)
    (hmem : track_id ∈ alistKeys st.track_memory)
    (hstate : alistGet? st.track_states track_id = some s)
    (hside : (st.direction = Direction.horizontal → s = Side.above ∨ s = Side.below) ∧
             (st.direction = Direction.vertical → s = Side.left ∨ s = Side.right)) :
    ((sideOf st.direction st.line_position (pyHalf (bbox.1 + bbox.2.2.1))
        (pyHalf (bbox.2.1 + bbox.2.2.2)) ≠ s →
       ((s = Side.above ∨ s = Side.left) →
          (check_crossing st track_id bbox).count_in = st.count_in + 1 ∧
          (check_crossing st track_id bbox).count_out = st.count_out) ∧
       ((s = Side.below ∨ s = Side.right) →
          (check_crossing st track_id bbox).count_out = st.count_out + 1 ∧
          (check_crossing st track_id bbox).count_in = st.count_in)) ∧
     (sideOf st.direction st.line_position (pyHalf (bbox.1 + bbox.2.2.1))
        (pyHalf (bbox.2.1 + bbox.2.2.2)) = s →
       (check_crossing st track_id bbox).count_in = st.count_in ∧
       (check_crossing st track_id bbox).count_out = st.count_out) ∧
     alistGet? (check_crossing st track_id bbox).track_states track_id =
       some (sideOf st.direction st.line_position (pyHalf (bbox.1 + bbox.2.2.1))
         (pyHalf (bbox.2.1 + bbox.2.2.2))) ∧
     alistGet? (check_crossing st track_id bbox).track_memory track_id =
       some (if st.direction = Direction.horizontal then pyHalf (bbox.2.1 + bbox.2.2.2)
             else pyHalf (bbox.1 + bbox.2.2.1))) := by
  obtain ⟨hsideH, hsideV⟩ := hside
  cases hd : st.direction with
  | horizontal =>
    rcases hsideH hd with hs | hs <;>
    · subst hs
      by_cases hc : pyHalf (bbox.2.1 + bbox.2.2.2) < st.line_position <;>
        simp [check_crossing, sideOf, hd, hmem, hstate, hc,
          alistGet?_set_self, alistGet?_set_ne]
  | vertical =>
    rcases hsideV hd with hs | hs <;>
    · subst hs
      by_cases hc : pyHalf (bbox.1 + bbox.2.2.1) < st.line_position <;>
        simp [check_crossing, sideOf, hd, hmem, hstate, hc,
          alistGet?_set_self, alistGet?_set_ne]

/-- Witness for claim C2: horizontal line at 240, identity 0 stored
above at y=200, new bbox centered at y=280: `count_in` grows to 1 and
`count_out` stays 0. -/
theorem claim_C2_witness :
    (check_crossing { line_position := 240, direction := Direction.horizontal,
                      count_in := 0, count_out := 0, track_memory := [(0, 200)],
                      track_states := [(0, Side.above)], max_capacity := 50 }
      0 (100, 270, 120, 290)).count_in = 0 + 1 ∧
    (check_crossing { line_position := 240, direction := Direction.horizontal,
                      count_in := 0, count_out := 0, track_memory := [(0, 200)],
                      track_states := [(0, Side.above)], max_capacity := 50 }
      0 (100, 270, 120, 290)).count_out = 0 :=
  (claim_C2_check_crossing_transition _ 0 (100, 270, 120, 290) Side.above
    (by decide) (by decide) (by decide)).1 (by decide) |>.1 (Or.inl rfl)

/-! ## Lemmas about the tracker's cost function -/

theorem euclidSq_nonneg (p q : ℤ × ℤ) : 0 ≤ euclidSq p q := by
  unfold euclidSq
  have : (0 : ℤ) ≤ (p.1 - q.1) ^ 2 + (p.2 - q.2) ^ 2 := by positivity
  exact_mod_cast this

theorem size_similarity_eq_spec (s1 s2 : ℤ × ℤ) :
    size_similarity s1 s2 = spec_size_similarity s1 s2 := by
  unfold size_similarity spec_size_similarity
  by_cases h1 : s1.1 = 0 ∨ s1.2 = 0 ∨ s2.1 = 0 ∨ s2.2 = 0
  · rw [if_pos h1]
    by_cases hz : s1 = (0, 0) ∨ s2 = (0, 0)
    · rw [if_pos hz]
    · rw [if_neg hz, if_pos]
      rcases h1 with h | h | h | h <;> simp [mul_eq_zero, h]
  · push_neg at h1
    obtain ⟨h11, h12, h21, h22⟩ := h1
    rw [if_neg (by simp [h11, h12, h21, h22, Prod.ext_iff]),
        if_neg (by simp [mul_eq_zero, h11, h12, h21, h22]),
        if_neg (by simp [h11, h12, h21, h22])]

theorem size_similarity_pos_le_one (s1 s2 : ℤ × ℤ)
    (h1 : 0 ≤ s1.1 ∧ 0 ≤ s1.2) (h2 : 0 ≤ s2.1 ∧ 0 ≤ s2.2) :
    0 < size_similarity s1 s2 ∧ size_similarity s1 s2 ≤ 1 := by
  unfold size_similarity
  by_cases hz : s1 = (0, 0) ∨ s2 = (0, 0)
  · rw [if_pos hz]
    exact ⟨one_pos, le_refl 1⟩
  · rw [if_neg hz]
    by_cases ha : s1.1 * s1.2 = 0 ∨ s2.1 * s2.2 = 0
    · simp only [ha, if_true]
      exact ⟨one_pos, le_refl 1⟩
    · simp only [ha, if_false]
      push_neg at ha
      have ha1 : 0 < s1.1 * s1.2 := lt_of_le_of_ne (mul_nonneg h1.1 h1.2) (Ne.symm ha.1)
      have ha2 : 0 < s2.1 * s2.2 := lt_of_le_of_ne (mul_nonneg h2.1 h2.2) (Ne.symm ha.2)
      have hmin : (0 : ℚ) < ((min (s1.1 * s1.2) (s2.1 * s2.2) : ℤ) : ℚ) := by
        exact_mod_cast lt_min ha1 ha2
      have hmax : (0 : ℚ) < ((max (s1.1 * s1.2) (s2.1 * s2.2) : ℤ) : ℚ) := by
        exact_mod_cast lt_max_of_lt_left ha1
      constructor
      · exact div_pos hmin hmax
      · rw [div_le_one hmax]
        exact_mod_cast min_le_max

theorem size_similarity_degenerate (s1 s2 : ℤ × ℤ)
    (h : s1.1 = 0 ∨ s1.2 = 0 ∨ s2.1 = 0 ∨ s2.2 = 0) :
    size_similarity s1 s2 = 1 := by
  rw [size_similarity_eq_spec]
  unfold spec_size_similarity
  rw [if_pos h]

/-- Claim C4: the matching cost (whose square the embedding stores) is
the Euclidean distance between the identity's predicted position —
current position plus velocity, truncated to integers, not the raw
last-seen position — and the detection's centroid, divided by the size
similarity; the size similarity is `min(area1,area2)/max(area1,area2)`,
lies in (0, 1], and is 1 whenever either size is degenerate, so an
unknown size never penalizes the match. -/
theorem claim_C4_enhanced_distance (st : Tracker) (obj_id : ℕ) (c : ℤ × ℤ) (s : ℤ × ℤ)
    (hobj : 0 ≤ ((alistGet? st.object_sizes obj_id).getD (0, 0)).1 ∧
            0 ≤ ((alistGet? st.object_sizes obj_id).getD (0, 0)).2)
    (hs : 0 ≤ s.1 ∧ 0 ≤ s.2) :
    (Real.sqrt (enhanced_distanceSq st obj_id c s) =
       Real.sqrt (euclidSq (predict_position st obj_id) c) /
         (size_similarity ((alistGet? st.object_sizes obj_id).getD (0, 0)) s : ℚ)) ∧
    (0 < size_similarity ((alistGet? st.object_sizes obj_id).getD (0, 0)) s ∧
       size_similarity ((alistGet? st.object_sizes obj_id).getD (0, 0)) s ≤ 1) ∧
    (∀ s1 s2 : ℤ × ℤ, size_similarity s1 s2 = spec_size_similarity s1 s2) ∧
    (((alistGet? st.object_sizes obj_id).getD (0, 0)).1 = 0 ∨
       ((alistGet? st.object_sizes obj_id).getD (0, 0)).2 = 0 ∨ s.1 = 0 ∨ s.2 = 0 →
       size_similarity ((alistGet? st.object_sizes obj_id).getD (0, 0)) s = 1) ∧
    (∀ v : ℚ × ℚ, alistGet? st.object_velocities obj_id = some v →
       predict_position st obj_id =
         (truncQ ((((alistGet? st.objects obj_id).getD (0, 0)).1 : ℚ) + v.1),
          truncQ ((((alistGet? st.objects obj_id).getD (0, 0)).2 : ℚ) + v.2))) := by
  have hsim := size_similarity_pos_le_one _ s hobj hs
  refine ⟨?_, hsim, size_similarity_eq_spec, ?_, ?_⟩
  · unfold enhanced_distanceSq
    have hpos : (0 : ℝ) ≤ (euclidSq (predict_position st obj_id) c : ℚ) := by
      exact_mod_cast euclidSq_nonneg _ _
    have hsimR : (0 : ℝ) < (size_similarity ((alistGet? st.object_sizes obj_id).getD (0, 0)) s : ℚ) := by
      exact_mod_cast hsim.1
    push_cast
    rw [Real.sqrt_div hpos, Real.sqrt_sq (le_of_lt hsimR)]
  · intro h
    exact size_similarity_degenerate _ _ h
  · intro v hv
    unfold predict_position
    rw [hv]

/-- Witness for claim C4 at a concrete identity with velocity (3, 0):
the predicted position used by the cost is the current position plus
the velocity. -/
theorem claim_C4_witness :
    predict_position { next_object_id := 1, objects := [(0, ((10 : ℤ), (20 : ℤ)))],
                       disappeared := [(0, 0)], max_disappeared := 60, max_distance := 150,
                       object_history := [(0, [((10 : ℤ), (20 : ℤ))])],
                       object_velocities := [(0, ((3 : ℚ), (0 : ℚ)))],
                       object_sizes := [(0, ((5 : ℤ), (5 : ℤ)))] } 0 =
      (truncQ (((10 : ℤ) : ℚ) + 3), truncQ (((20 : ℤ) : ℚ) + 0)) :=
  (claim_C4_enhanced_distance _ 0 (0, 0) (5, 5) (by decide) (by decide)).2.2.2.2
    (3, 0) (by decide)

/-! ## Projection equations for the tracker operations -/

theorem matchStep_objects (st : Tracker) (id : ℕ) (c s : ℤ × ℤ) :
    (matchStep st id c s).objects = alistSet st.objects id c := rfl

theorem matchStep_disappeared (st : Tracker) (id : ℕ) (c s : ℤ × ℤ) :
    (matchStep st id c s).disappeared = alistSet st.disappeared id 0 := rfl

theorem matchStep_velocities (st : Tracker) (id : ℕ) (c s : ℤ × ℤ) :
    (matchStep st id c s).object_velocities =
      alistSet st.object_velocities id (calculate_velocity st id c) := rfl

theorem matchStep_history (st : Tracker) (id : ℕ) (c s : ℤ × ℤ) :
    (matchStep st id c s).object_history =
      alistSet st.object_history id
        (if ((alistGet? st.object_history id).getD [] ++ [c]).length > 10
         then ((alistGet? st.object_history id).getD [] ++ [c]).drop 1
         else (alistGet? st.object_history id).getD [] ++ [c]) := rfl

theorem matchStep_sizes (st : Tracker) (id : ℕ) (c s : ℤ × ℤ) :
    (matchStep st id c s).object_sizes = alistSet st.object_sizes id s := rfl

theorem matchStep_scalars (st : Tracker) (id : ℕ) (c s : ℤ × ℤ) :
    (matchStep st id c s).next_object_id = st.next_object_id ∧
    (matchStep st id c s).max_disappeared = st.max_disappeared ∧
    (matchStep st id c s).max_distance = st.max_distance := ⟨rfl, rfl, rfl⟩

theorem deregister_fields (st : Tracker) (id : ℕ) :
    (deregister st id).objects = alistErase st.objects id ∧
    (deregister st id).disappeared = alistErase st.disappeared id ∧
    (deregister st id).object_history = alistErase st.object_history id ∧
    (deregister st id).object_velocities = alistErase st.object_velocities id ∧
    (deregister st id).object_sizes = alistErase st.object_sizes id ∧
    (deregister st id).next_object_id = st.next_object_id ∧
    (deregister st id).max_disappeared = st.max_disappeared ∧
    (deregister st id).max_distance = st.max_distance :=
  ⟨rfl, rfl, rfl, rfl, rfl, rfl, rfl, rfl⟩

theorem register_fields (st : Tracker) (c s : ℤ × ℤ) :
    (register st c s).objects = alistSet st.objects st.next_object_id c ∧
    (register st c s).disappeared = alistSet st.disappeared st.next_object_id 0 ∧
    (register st c s).object_history = alistSet st.object_history st.next_object_id [c] ∧
    (register st c s).object_velocities =
      alistSet st.object_velocities st.next_object_id (0, 0) ∧
    (register st c s).object_sizes = alistSet st.object_sizes st.next_object_id s ∧
    (register st c s).next_object_id = st.next_object_id + 1 ∧
    (register st c s).max_disappeared = st.max_disappeared ∧
    (register st c s).max_distance = st.max_distance :=
  ⟨rfl, rfl, rfl, rfl, rfl, rfl, rfl, rfl⟩

theorem ageStep_eq (st : Tracker) (id : ℕ) :
    ageStep st id =
      (if (alistGet? st.disappeared id).getD 0 + 1 > st.max_disappeared then
        deregister
          { st with disappeared :=
              alistSet st.disappeared id ((alistGet? st.disappeared id).getD 0 + 1) } id
       else
        { st with disappeared :=
            alistSet st.disappeared id ((alistGet? st.disappeared id).getD 0 + 1) }) := rfl

/-- Entries of identities other than the aged one are untouched by one
ageing tick, as are the scalar fields. -/
theorem ageStep_get_ne (st : Tracker) (id j : ℕ) (h : j ≠ id) :
    alistGet? (ageStep st id).objects j = alistGet? st.objects j ∧
    alistGet? (ageStep st id).disappeared j = alistGet? st.disappeared j ∧
    alistGet? (ageStep st id).object_history j = alistGet? st.object_history j ∧
    alistGet? (ageStep st id).object_velocities j = alistGet? st.object_velocities j ∧
    alistGet? (ageStep st id).object_sizes j = alistGet? st.object_sizes j ∧
    (ageStep st id).next_object_id = st.next_object_id ∧
    (ageStep st id).max_disappeared = st.max_disappeared ∧
    (ageStep st id).max_distance = st.max_distance := by
  rw [ageStep_eq]
  split
  · exact ⟨alistGet?_erase_ne _ _ _ h, by
      rw [(deregister_fields _ _).2.1]
      rw [alistGet?_erase_ne _ _ _ h]
      exact alistGet?_set_ne _ _ _ _ h, alistGet?_erase_ne _ _ _ h,
      alistGet?_erase_ne _ _ _ h, alistGet?_erase_ne _ _ _ h, rfl, rfl, rfl⟩
  · exact ⟨rfl, alistGet?_set_ne _ _ _ _ h, rfl, rfl, rfl, rfl, rfl, rfl⟩

/-- Entries of identities other than the matched one are untouched by
one match step, as are the scalar fields. -/
theorem matchStep_get_ne (st : Tracker) (id : ℕ) (c s : ℤ × ℤ) (j : ℕ) (h : j ≠ id) :
    alistGet? (matchStep st id c s).objects j = alistGet? st.objects j ∧
    alistGet? (matchStep st id c s).disappeared j = alistGet? st.disappeared j ∧
    alistGet? (matchStep st id c s).object_history j = alistGet? st.object_history j ∧
    alistGet? (matchStep st id c s).object_velocities j = alistGet? st.object_velocities j ∧
    alistGet? (matchStep st id c s).object_sizes j = alistGet? st.object_sizes j ∧
    (matchStep st id c s).next_object_id = st.next_object_id :=
  ⟨by rw [matchStep_objects]; exact alistGet?_set_ne _ _ _ _ h,
   by rw [matchStep_disappeared]; exact alistGet?_set_ne _ _ _ _ h,
   by rw [matchStep_history]; exact alistGet?_set_ne _ _ _ _ h,
   by rw [matchStep_velocities]; exact alistGet?_set_ne _ _ _ _ h,
   by rw [matchStep_sizes]; exact alistGet?_set_ne _ _ _ _ h, rfl⟩

/-- Entries of identities other than the freshly registered id are
untouched by `register`. -/
theorem register_get_ne (st : Tracker) (c s : ℤ × ℤ) (j : ℕ) (h : j ≠ st.next_object_id) :
    alistGet? (register st c s).objects j = alistGet? st.objects j ∧
    alistGet? (register st c s).disappeared j = alistGet? st.disappeared j ∧
    alistGet? (register st c s).object_history j = alistGet? st.object_history j ∧
    alistGet? (register st c s).object_velocities j = alistGet? st.object_velocities j ∧
    alistGet? (register st c s).object_sizes j = alistGet? st.object_sizes j :=
  ⟨alistGet?_set_ne _ _ _ _ h, alistGet?_set_ne _ _ _ _ h, alistGet?_set_ne _ _ _ _ h,
   alistGet?_set_ne _ _ _ _ h, alistGet?_set_ne _ _ _ _ h⟩

theorem ageStep_scalars (st : Tracker) (id : ℕ) :
    (ageStep st id).next_object_id = st.next_object_id ∧
    (ageStep st id).max_disappeared = st.max_disappeared ∧
    (ageStep st id).max_distance = st.max_distance := by
  rw [ageStep_eq]
  split <;> exact ⟨rfl, rfl, rfl⟩

theorem ageIds_scalars (ids : List ℕ) (st : Tracker) :
    (ageIds st ids).next_object_id = st.next_object_id ∧
    (ageIds st ids).max_disappeared = st.max_disappeared ∧
    (ageIds st ids).max_distance = st.max_distance := by
  induction ids generalizing st with
  | nil => exact ⟨rfl, rfl, rfl⟩
  | cons i ids ih =>
    have hs := ageStep_scalars st i
    have hi := ih (ageStep st i)
    exact ⟨hi.1.trans hs.1, hi.2.1.trans hs.2.1, hi.2.2.trans hs.2.2⟩

theorem ageIds_get_not_mem (ids : List ℕ) (st : Tracker) (j : ℕ) (h : j ∉ ids) :
    alistGet? (ageIds st ids).objects j = alistGet? st.objects j ∧
    alistGet? (ageIds st ids).disappeared j = alistGet? st.disappeared j ∧
    alistGet? (ageIds st ids).object_history j = alistGet? st.object_history j ∧
    alistGet? (ageIds st ids).object_velocities j = alistGet? st.object_velocities j ∧
    alistGet? (ageIds st ids).object_sizes j = alistGet? st.object_sizes j := by
  induction ids generalizing st with
  | nil => exact ⟨rfl, rfl, rfl, rfl, rfl⟩
  | cons i ids ih =>
    have hji : j ≠ i := fun hc => h (hc ▸ List.mem_cons_self i ids)
    have hs := ageStep_get_ne st i j hji
    have hi := ih (ageStep st i) (fun hc => h (List.mem_cons_of_mem i hc))
    exact ⟨hi.1.trans hs.1, hi.2.1.trans hs.2.1, hi.2.2.1.trans hs.2.2.1,
      hi.2.2.2.1.trans hs.2.2.2.1, hi.2.2.2.2.trans hs.2.2.2.2.1⟩

theorem ageIds_nodup_keys (ids : List ℕ) (st : Tracker)
    (h : (alistKeys st.disappeared).Nodup) :
    (alistKeys (ageIds st ids).disappeared).Nodup := by
  induction ids generalizing st with
  | nil => exact h
  | cons i ids ih =>
    refine ih (ageStep st i) ?_
    rw [ageStep_eq]
    split
    · rw [(deregister_fields _ _).2.1]
      exact alistKeys_erase_nodup _ _ (alistKeys_set_nodup _ _ _ h)
    · exact alistKeys_set_nodup _ _ _ h

theorem ageStep_get_self_gt (st : Tracker) (j d : ℕ)
    (hd : alistGet? st.disappeared j = some d) (hgt : d + 1 > st.max_disappeared) :
    alistGet? (ageStep st j).objects j = none ∧
    alistGet? (ageStep st j).disappeared j = none ∧
    alistGet? (ageStep st j).object_history j = none ∧
    alistGet? (ageStep st j).object_velocities j = none ∧
    alistGet? (ageStep st j).object_sizes j = none := by
  have hcond : (alistGet? st.disappeared j).getD 0 + 1 > st.max_disappeared := by
    rw [hd]
    simpa using hgt
  rw [ageStep_eq, if_pos hcond]
  exact ⟨by simp [deregister, alistGet?_erase_self],
    by simp [deregister, alistGet?_erase_self],
    by simp [deregister, alistGet?_erase_self],
    by simp [deregister, alistGet?_erase_self],
    by simp [deregister, alistGet?_erase_self]⟩

theorem ageStep_get_self_le (st : Tracker) (j d : ℕ)
    (hd : alistGet? st.disappeared j = some d) (hle : d + 1 ≤ st.max_disappeared) :
    alistGet? (ageStep st j).disappeared j = some (d + 1) ∧
    alistGet? (ageStep st j).objects j = alistGet? st.objects j ∧
    alistGet? (ageStep st j).object_history j = alistGet? st.object_history j ∧
    alistGet? (ageStep st j).object_velocities j = alistGet? st.object_velocities j ∧
    alistGet? (ageStep st j).object_sizes j = alistGet? st.object_sizes j := by
  have hcond : ¬((alistGet? st.disappeared j).getD 0 + 1 > st.max_disappeared) := by
    rw [hd]
    simp only [Option.getD_some]
    omega
  rw [ageStep_eq, if_neg hcond]
  refine ⟨?_, rfl, rfl, rfl, rfl⟩
  show alistGet? (alistSet st.disappeared j ((alistGet? st.disappeared j).getD 0 + 1)) j =
    some (d + 1)
  rw [alistGet?_set_self, hd]
  rfl

/-- Effect of a whole ageing pass on one identity contained exactly once
in the processed snapshot: its disappeared count grows by one, and it
is removed from every per-identity map exactly when the grown count
exceeds `max_disappeared`. -/
theorem ageIds_spec (ids : List ℕ) (st : Tracker) (j : ℕ) (d : ℕ)
    (hnod : ids.Nodup) (hmem : j ∈ ids) (hd : alistGet? st.disappeared j = some d) :
    (d + 1 > st.max_disappeared →
       alistGet? (ageIds st ids).objects j = none ∧
       alistGet? (ageIds st ids).disappeared j = none ∧
       alistGet? (ageIds st ids).object_history j = none ∧
       alistGet? (ageIds st ids).object_velocities j = none ∧
       alistGet? (ageIds st ids).object_sizes j = none) ∧
    (d + 1 ≤ st.max_disappeared →
       alistGet? (ageIds st ids).disappeared j = some (d + 1) ∧
       alistGet? (ageIds st ids).objects j = alistGet? st.objects j ∧
       alistGet? (ageIds st ids).object_history j = alistGet? st.object_history j ∧
       alistGet? (ageIds st ids).object_velocities j = alistGet? st.object_velocities j ∧
       alistGet? (ageIds st ids).object_sizes j = alistGet? st.object_sizes j) := by
  obtain ⟨pre, post, rfl⟩ := List.append_of_mem hmem
  rw [List.nodup_append] at hnod
  obtain ⟨hpreN, hpostN, hdisj⟩ := hnod
  have hjpre : j ∉ pre := fun hc => hdisj hc (List.mem_cons_self j post)
  have hjpost : j ∉ post := (List.nodup_cons.mp hpostN).1
  have hsplit : ageIds st (pre ++ j :: post) = ageIds (ageStep (ageIds st pre) j) post := by
    unfold ageIds
    rw [List.foldl_append, List.foldl_cons]
  have hpre := ageIds_get_not_mem pre st j hjpre
  have hmax : (ageIds st pre).max_disappeared = st.max_disappeared :=
    (ageIds_scalars pre st).2.1
  have hd1 : alistGet? (ageIds st pre).disappeared j = some d := hpre.2.1.trans hd
  have hpost2 := ageIds_get_not_mem post (ageStep (ageIds st pre) j) j hjpost
  constructor
  · intro hgt
    have hstep := ageStep_get_self_gt (ageIds st pre) j d hd1 (by rw [hmax]; exact hgt)
    rw [hsplit]
    exact ⟨hpost2.1.trans hstep.1, hpost2.2.1.trans hstep.2.1,
      hpost2.2.2.1.trans hstep.2.2.1, hpost2.2.2.2.1.trans hstep.2.2.2.1,
      hpost2.2.2.2.2.trans hstep.2.2.2.2⟩
  · intro hle
    have hstep := ageStep_get_self_le (ageIds st pre) j d hd1 (by rw [hmax]; exact hle)
    rw [hsplit]
    exact ⟨hpost2.2.1.trans hstep.1, hpost2.1.trans (hstep.2.1.trans hpre.1),
      hpost2.2.2.1.trans (hstep.2.2.1.trans hpre.2.2.1),
      hpost2.2.2.2.1.trans (hstep.2.2.2.1.trans hpre.2.2.2.1),
      hpost2.2.2.2.2.trans (hstep.2.2.2.2.trans hpre.2.2.2.2)⟩

/-! ## Branch equations for update -/

theorem update_nil_eq (st : Tracker) :
    update st [] = ageIds st (alistKeys st.disappeared) := by
  unfold update
  rw [if_pos rfl]

theorem update_register_all_eq (st : Tracker) (dets : List ((ℤ × ℤ) × (ℤ × ℤ)))
    (h1 : dets ≠ []) (h2 : st.objects = []) :
    update st dets = dets.foldl (fun s det => register s det.1 det.2) st := by
  unfold update
  rw [if_neg h1, if_pos h2]

theorem update_age_eq (st : Tracker) (dets : List ((ℤ × ℤ) × (ℤ × ℤ)))
    (h1 : dets ≠ []) (h2 : st.objects ≠ [])
    (h3 : (updateObjectIds st).length ≥ dets.length) :
    update st dets = ageIds (applyMatches st dets)
      ((updateUnusedRows st dets).map (fun r => (updateObjectIds st).getD r 0)) := by
  unfold update
  rw [if_neg h1, if_neg h2, if_pos h3]

theorem update_register_new_eq (st : Tracker) (dets : List ((ℤ × ℤ) × (ℤ × ℤ)))
    (h1 : dets ≠ []) (h2 : st.objects ≠ [])
    (h3 : ¬((updateObjectIds st).length ≥ dets.length)) :
    update st dets = (updateUnusedCols st dets).foldl
      (fun s c =>
        register s ((dets.map Prod.fst).getD c (0, 0)) ((dets.map Prod.snd).getD c (0, 0)))
      (applyMatches st dets) := by
  unfold update
  rw [if_neg h1, if_neg h2, if_neg h3]

/-! ## Properties of the greedy assignment -/

theorem greedy_fold_inv (cost : ℕ → ℕ → ℚ) (maxd : ℚ) (pairs : List (ℕ × ℕ))
    (acc : List (ℕ × ℕ) × List ℕ × List ℕ)
    (h1 : acc.2.1 = acc.1.map Prod.fst) (h2 : acc.2.2 = acc.1.map Prod.snd)
    (h3 : acc.2.1.Nodup) (h4 : acc.2.2.Nodup) :
    (pairs.foldl (greedyStep cost maxd) acc).2.1 =
      (pairs.foldl (greedyStep cost maxd) acc).1.map Prod.fst ∧
    (pairs.foldl (greedyStep cost maxd) acc).2.2 =
      (pairs.foldl (greedyStep cost maxd) acc).1.map Prod.snd ∧
    (pairs.foldl (greedyStep cost maxd) acc).2.1.Nodup ∧
    (pairs.foldl (greedyStep cost maxd) acc).2.2.Nodup ∧
    (∀ rc ∈ (pairs.foldl (greedyStep cost maxd) acc).1,
       rc ∈ acc.1 ∨ (rc ∈ pairs ∧ 0 ≤ maxd ∧ cost rc.1 rc.2 ≤ maxd ^ 2)) := by
  induction pairs generalizing acc with
  | nil => exact ⟨h1, h2, h3, h4, fun rc h => Or.inl h⟩
  | cons p ps ih =>
    rw [List.foldl_cons]
    by_cases hskip : p.1 ∈ acc.2.1 ∨ p.2 ∈ acc.2.2
    · have hstep : greedyStep cost maxd acc p = acc := by
        unfold greedyStep
        rw [if_pos hskip]
      rw [hstep]
      have := ih acc h1 h2 h3 h4
      exact ⟨this.1, this.2.1, this.2.2.1, this.2.2.2.1,
        fun rc h => (this.2.2.2.2 rc h).elim Or.inl
          (fun hh => Or.inr ⟨List.mem_cons_of_mem p hh.1, hh.2⟩)⟩
    · by_cases hcost : 0 ≤ maxd ∧ cost p.1 p.2 ≤ maxd ^ 2
      · have hstep : greedyStep cost maxd acc p =
            (acc.1 ++ [p], acc.2.1 ++ [p.1], acc.2.2 ++ [p.2]) := by
          unfold greedyStep
          rw [if_neg hskip, if_pos hcost]
        rw [hstep]
        push_neg at hskip
        have h1n : acc.2.1 ++ [p.1] = (acc.1 ++ [p]).map Prod.fst := by
          rw [List.map_append, h1]
          rfl
        have h2n : acc.2.2 ++ [p.2] = (acc.1 ++ [p]).map Prod.snd := by
          rw [List.map_append, h2]
          rfl
        have h3n : (acc.2.1 ++ [p.1]).Nodup := by
          refine List.Nodup.append h3 (List.nodup_singleton _) ?_
          intro a ha hb
          rw [List.mem_singleton] at hb
          exact hskip.1 (hb ▸ ha)
        have h4n : (acc.2.2 ++ [p.2]).Nodup := by
          refine List.Nodup.append h4 (List.nodup_singleton _) ?_
          intro a ha hb
          rw [List.mem_singleton] at hb
          exact hskip.2 (hb ▸ ha)
        have := ih (acc.1 ++ [p], acc.2.1 ++ [p.1], acc.2.2 ++ [p.2]) h1n h2n h3n h4n
        refine ⟨this.1, this.2.1, this.2.2.1, this.2.2.2.1, fun rc h => ?_⟩
        rcases this.2.2.2.2 rc h with hh | hh
        · rcases List.mem_append.mp hh with hh | hh
          · exact Or.inl hh
          · rw [List.mem_singleton] at hh
            exact Or.inr ⟨hh ▸ List.mem_cons_self p ps, hh ▸ hcost⟩
        · exact Or.inr ⟨List.mem_cons_of_mem p hh.1, hh.2⟩
      · have hstep : greedyStep cost maxd acc p = acc := by
          unfold greedyStep
          rw [if_neg hskip, if_neg hcost]
        rw [hstep]
        have := ih acc h1 h2 h3 h4
        exact ⟨this.1, this.2.1, this.2.2.1, this.2.2.2.1,
          fun rc h => (this.2.2.2.2 rc h).elim Or.inl
            (fun hh => Or.inr ⟨List.mem_cons_of_mem p hh.1, hh.2⟩)⟩

/-- The accepted matches have pairwise distinct rows, pairwise distinct
columns, come from the processed pair list, and satisfy the
`max_distance` threshold. -/
theorem greedyAssign_spec (cost : ℕ → ℕ → ℚ) (maxd : ℚ) (pairs : List (ℕ × ℕ)) :
    ((greedyAssign cost maxd pairs).map Prod.fst).Nodup ∧
    ((greedyAssign cost maxd pairs).map Prod.snd).Nodup ∧
    (∀ rc ∈ greedyAssign cost maxd pairs,
       rc ∈ pairs ∧ 0 ≤ maxd ∧ cost rc.1 rc.2 ≤ maxd ^ 2) := by
  have h := greedy_fold_inv cost maxd pairs ([], [], []) rfl rfl List.nodup_nil
    List.nodup_nil
  refine ⟨h.1 ▸ h.2.2.1, h.2.1 ▸ h.2.2.2.1, fun rc hm => ?_⟩
  rcases h.2.2.2.2 rc hm with hh | hh
  · exact absurd hh (List.not_mem_nil rc)
  · exact hh

theorem mem_insertByKey (key : ℕ → ℚ) (x a : ℕ) (l : List ℕ) :
    a ∈ insertByKey key x l ↔ a = x ∨ a ∈ l := by
  induction l with
  | nil => simp [insertByKey]
  | cons y ys ih =>
    unfold insertByKey
    split
    · simp
    · simp only [List.mem_cons, ih]
      tauto

theorem mem_sortByKey (key : ℕ → ℚ) (l : List ℕ) (a : ℕ) :
    a ∈ sortByKey key l ↔ a ∈ l := by
  induction l with
  | nil => simp [sortByKey]
  | cons x xs ih =>
    unfold sortByKey at *
    rw [List.foldr_cons, mem_insertByKey, ih, List.mem_cons]

theorem mem_updateRows (st : Tracker) (dets : List ((ℤ × ℤ) × (ℤ × ℤ))) (r : ℕ) :
    r ∈ updateRows st dets ↔ r < (updateObjectIds st).length := by
  unfold updateRows
  rw [mem_sortByKey, List.mem_range]

theorem updateAssigns_row_lt (st : Tracker) (dets : List ((ℤ × ℤ) × (ℤ × ℤ))) :
    ∀ rc ∈ updateAssigns st dets, rc.1 < (updateObjectIds st).length := by
  intro rc hm
  have hp := ((greedyAssign_spec (updateCost st dets) st.max_distance
    (updatePairs st dets)).2.2 rc hm).1
  unfold updatePairs at hp
  rcases List.mem_map.mp hp with ⟨r, hr, hrc⟩
  rw [← hrc]
  exact (mem_updateRows st dets r).mp hr

theorem getD_ne_of_nodup (l : List ℕ) (hn : l.Nodup) (i j : ℕ)
    (hi : i < l.length) (hj : j < l.length) (hij : i ≠ j) :
    l.getD i 0 ≠ l.getD j 0 := by
  rw [List.getD_eq_getElem l 0 hi, List.getD_eq_getElem l 0 hj]
  intro hc
  exact hij ((List.Nodup.getElem_inj_iff hn).mp hc)

theorem getD_mem_of_lt (l : List ℕ) (i : ℕ) (hi : i < l.length) :
    l.getD i 0 ∈ l := by
  rw [List.getD_eq_getElem l 0 hi]
  exact List.getElem_mem hi

/-! ## Fold lemmas for the match phase and the registration phase -/

theorem foldl_matchStep_scalars (idOf : ℕ → ℕ) (cOf sOf : ℕ → ℤ × ℤ)
    (ps : List (ℕ × ℕ)) (s0 : Tracker) :
    (ps.foldl (fun s rc => matchStep s (idOf rc.1) (cOf rc.2) (sOf rc.2)) s0).next_object_id =
      s0.next_object_id ∧
    (ps.foldl (fun s rc => matchStep s (idOf rc.1) (cOf rc.2) (sOf rc.2)) s0).max_disappeared =
      s0.max_disappeared ∧
    (ps.foldl (fun s rc => matchStep s (idOf rc.1) (cOf rc.2) (sOf rc.2)) s0).max_distance =
      s0.max_distance := by
  induction ps generalizing s0 with
  | nil => exact ⟨rfl, rfl, rfl⟩
  | cons p ps ih =>
    rw [List.foldl_cons]
    have hs := matchStep_scalars s0 (idOf p.1) (cOf p.2) (sOf p.2)
    have hi := ih (matchStep s0 (idOf p.1) (cOf p.2) (sOf p.2))
    exact ⟨hi.1.trans hs.1, hi.2.1.trans hs.2.1, hi.2.2.trans hs.2.2⟩

theorem foldl_matchStep_get_ne (idOf : ℕ → ℕ) (cOf sOf : ℕ → ℤ × ℤ)
    (ps : List (ℕ × ℕ)) (s0 : Tracker) (j : ℕ) (h : ∀ rc ∈ ps, idOf rc.1 ≠ j) :
    alistGet? (ps.foldl (fun s rc => matchStep s (idOf rc.1) (cOf rc.2) (sOf rc.2)) s0).objects
      j = alistGet? s0.objects j ∧
    alistGet? (ps.foldl (fun s rc =>
      matchStep s (idOf rc.1) (cOf rc.2) (sOf rc.2)) s0).disappeared j =
      alistGet? s0.disappeared j ∧
    alistGet? (ps.foldl (fun s rc =>
      matchStep s (idOf rc.1) (cOf rc.2) (sOf rc.2)) s0).object_history j =
      alistGet? s0.object_history j ∧
    alistGet? (ps.foldl (fun s rc =>
      matchStep s (idOf rc.1) (cOf rc.2) (sOf rc.2)) s0).object_velocities j =
      alistGet? s0.object_velocities j ∧
    alistGet? (ps.foldl (fun s rc =>
      matchStep s (idOf rc.1) (cOf rc.2) (sOf rc.2)) s0).object_sizes j =
      alistGet? s0.object_sizes j := by
  induction ps generalizing s0 with
  | nil => exact ⟨rfl, rfl, rfl, rfl, rfl⟩
  | cons p ps ih =>
    rw [List.foldl_cons]
    have hne : j ≠ idOf p.1 := fun hc => h p (List.mem_cons_self p ps) hc.symm
    have hs := matchStep_get_ne s0 (idOf p.1) (cOf p.2) (sOf p.2) j hne
    have hi := ih (matchStep s0 (idOf p.1) (cOf p.2) (sOf p.2))
      (fun rc hm => h rc (List.mem_cons_of_mem p hm))
    exact ⟨hi.1.trans hs.1, hi.2.1.trans hs.2.1, hi.2.2.1.trans hs.2.2.1,
      hi.2.2.2.1.trans hs.2.2.2.1, hi.2.2.2.2.trans hs.2.2.2.2.1⟩

/-- Velocity stored for a matched identity by the match-phase fold: the
exponential moving average `0.7 * old velocity + 0.3 * displacement`,
where the displacement is measured from the last history entry. -/
theorem foldl_matchStep_velocity (idOf : ℕ → ℕ) (cOf sOf : ℕ → ℤ × ℤ)
    (pre post : List (ℕ × ℕ)) (rc : ℕ × ℕ) (s0 : Tracker)
    (hist : List (ℤ × ℤ)) (v : ℚ × ℚ)
    (hpre : ∀ x ∈ pre, idOf x.1 ≠ idOf rc.1)
    (hpost : ∀ x ∈ post, idOf x.1 ≠ idOf rc.1)
    (hh : alistGet? s0.object_history (idOf rc.1) = some hist)
    (hlen : hist.length > 0)
    (hv : alistGet? s0.object_velocities (idOf rc.1) = some v) :
    alistGet? ((pre ++ rc :: post).foldl
      (fun s x => matchStep s (idOf x.1) (cOf x.2) (sOf x.2)) s0).object_velocities
      (idOf rc.1) =
      some (7/10 * v.1 + 3/10 * (((cOf rc.2).1 : ℚ) - ((hist.getLastD (0, 0)).1 : ℚ)),
            7/10 * v.2 + 3/10 * (((cOf rc.2).2 : ℚ) - ((hist.getLastD (0, 0)).2 : ℚ))) := by
  rw [List.foldl_append, List.foldl_cons]
  have hpre2 := foldl_matchStep_get_ne idOf cOf sOf pre s0 (idOf rc.1) hpre
  set s1 := pre.foldl (fun s x => matchStep s (idOf x.1) (cOf x.2) (sOf x.2)) s0 with hs1
  have hpost2 := foldl_matchStep_get_ne idOf cOf sOf post
    (matchStep s1 (idOf rc.1) (cOf rc.2) (sOf rc.2)) (idOf rc.1) hpost
  rw [hpost2.2.2.2.1]
  rw [matchStep_velocities, alistGet?_set_self]
  have hcv : calculate_velocity s1 (idOf rc.1) (cOf rc.2) =
      (7/10 * v.1 + 3/10 * (((cOf rc.2).1 : ℚ) - ((hist.getLastD (0, 0)).1 : ℚ)),
       7/10 * v.2 + 3/10 * (((cOf rc.2).2 : ℚ) - ((hist.getLastD (0, 0)).2 : ℚ))) := by
    unfold calculate_velocity
    rw [hpre2.2.2.1.trans hh]
    simp only [hlen, if_pos, hpre2.2.2.2.1.trans hv]
  rw [hcv]

theorem foldl_register_next {α : Type} (f g : α → ℤ × ℤ) (L : List α) (st : Tracker) :
    (L.foldl (fun s a => register s (f a) (g a)) st).next_object_id =
      st.next_object_id + L.length := by
  induction L generalizing st with
  | nil => rfl
  | cons b L ih =>
    rw [List.foldl_cons, ih]
    have : (register st (f b) (g b)).next_object_id = st.next_object_id + 1 :=
      (register_fields st (f b) (g b)).2.2.2.2.2.1
    rw [this]
    simp only [List.length_cons]
    omega

theorem foldl_register_scalars {α : Type} (f g : α → ℤ × ℤ) (L : List α) (st : Tracker) :
    (L.foldl (fun s a => register s (f a) (g a)) st).max_disappeared =
      st.max_disappeared ∧
    (L.foldl (fun s a => register s (f a) (g a)) st).max_distance = st.max_distance := by
  induction L generalizing st with
  | nil => exact ⟨rfl, rfl⟩
  | cons b L ih =>
    rw [List.foldl_cons]
    have hi := ih (register st (f b) (g b))
    exact ⟨hi.1, hi.2⟩

theorem foldl_register_get_lt {α : Type} (f g : α → ℤ × ℤ) (L : List α) (st : Tracker)
    (j : ℕ) (hj : j < st.next_object_id) :
    alistGet? ((L.foldl (fun s a => register s (f a) (g a)) st)).objects j =
      alistGet? st.objects j ∧
    alistGet? ((L.foldl (fun s a => register s (f a) (g a)) st)).disappeared j =
      alistGet? st.disappeared j ∧
    alistGet? ((L.foldl (fun s a => register s (f a) (g a)) st)).object_history j =
      alistGet? st.object_history j ∧
    alistGet? ((L.foldl (fun s a => register s (f a) (g a)) st)).object_velocities j =
      alistGet? st.object_velocities j ∧
    alistGet? ((L.foldl (fun s a => register s (f a) (g a)) st)).object_sizes j =
      alistGet? st.object_sizes j := by
  induction L generalizing st with
  | nil => exact ⟨rfl, rfl, rfl, rfl, rfl⟩
  | cons b L ih =>
    rw [List.foldl_cons]
    have hne : j ≠ st.next_object_id := Nat.ne_of_lt hj
    have hs := register_get_ne st (f b) (g b) j hne
    have hj2 : j < (register st (f b) (g b)).next_object_id := by
      rw [(register_fields st (f b) (g b)).2.2.2.2.2.1]
      omega
    have hi := ih (register st (f b) (g b)) hj2
    exact ⟨hi.1.trans hs.1, hi.2.1.trans hs.2.1, hi.2.2.1.trans hs.2.2.1,
      hi.2.2.2.1.trans hs.2.2.2.1, hi.2.2.2.2.trans hs.2.2.2.2⟩

/-- Every element of a registration fold really gets registered: some
fresh identity (at or above the starting `next_object_id`) ends up
mapped to its centroid. -/
theorem foldl_register_mem {α : Type} (f g : α → ℤ × ℤ) (L : List α) (st : Tracker)
    (a : α) (ha : a ∈ L) :
    ∃ id, st.next_object_id ≤ id ∧
      alistGet? ((L.foldl (fun s a => register s (f a) (g a)) st)).objects id =
        some (f a) := by
  induction L generalizing st with
  | nil => exact absurd ha (List.not_mem_nil a)
  | cons b L ih =>
    rw [List.foldl_cons]
    rcases List.mem_cons.mp ha with rfl | ha2
    · refine ⟨st.next_object_id, le_refl _, ?_⟩
      have hj2 : st.next_object_id < (register st (f a) (g a)).next_object_id := by
        rw [(register_fields st (f a) (g a)).2.2.2.2.2.1]
        omega
      rw [(foldl_register_get_lt f g L (register st (f a) (g a)) st.next_object_id hj2).1]
      rw [(register_fields st (f a) (g a)).1]
      exact alistGet?_set_self _ _ _
    · obtain ⟨id, hid, hget⟩ := ih (register st (f b) (g b)) ha2
      refine ⟨id, ?_, hget⟩
      have : (register st (f b) (g b)).next_object_id = st.next_object_id + 1 :=
        (register_fields st (f b) (g b)).2.2.2.2.2.1
      omega

/-! ## Preservation of the tracker invariant -/

theorem mem_alistKeys_erase {α : Type} (l : List (ℕ × α)) (k j : ℕ) :
    j ∈ alistKeys (alistErase l k) ↔ j ∈ alistKeys l ∧ j ≠ k := by
  rw [alistKeys_erase, List.mem_filter]
  simp

theorem register_WF (st : Tracker) (c s : ℤ × ℤ) (h : TrackerWF st) :
    TrackerWF (register st c s) := by
  obtain ⟨h1, h2, h3, h4, h5, h6⟩ := h
  have hfresh : st.next_object_id ∉ alistKeys st.objects := fun hc =>
    lt_irrefl _ (h6 _ hc)
  obtain ⟨e1, e2, e3, e4, e5, e6, -, -⟩ := register_fields st c s
  have knew : ∀ {β : Type} (m : List (ℕ × β)) (v : β),
      alistKeys m = alistKeys st.objects →
      alistKeys (alistSet m st.next_object_id v) = alistKeys st.objects ++
        [st.next_object_id] := by
    intro β m v hm
    rw [alistKeys_set, hm, if_neg hfresh]
  refine ⟨?_, ?_, ?_, ?_, ?_, ?_⟩
  · rw [e2, e1, knew _ _ h1, knew _ _ rfl]
  · rw [e3, e1, knew _ _ h2, knew _ _ rfl]
  · rw [e4, e1, knew _ _ h3, knew _ _ rfl]
  · rw [e5, e1, knew _ _ h4, knew _ _ rfl]
  · rw [e1, knew _ _ rfl]
    refine List.Nodup.append h5 (List.nodup_singleton _) ?_
    intro a ha hb
    rw [List.mem_singleton] at hb
    exact hfresh (hb ▸ ha)
  · intro k hk
    rw [e1, knew _ _ rfl, List.mem_append, List.mem_singleton] at hk
    rw [e6]
    rcases hk with hk | hk
    · exact Nat.lt_succ_of_lt (h6 _ hk)
    · rw [hk]
      exact Nat.lt_succ_self _
  
theorem deregister_WF (st : Tracker) (id : ℕ) (h : TrackerWF st) :
    TrackerWF (deregister st id) := by
  obtain ⟨h1, h2, h3, h4, h5, h6⟩ := h
  obtain ⟨e1, e2, e3, e4, e5, e6, -, -⟩ := deregister_fields st id
  refine ⟨?_, ?_, ?_, ?_, ?_, ?_⟩
  · rw [e2, e1, alistKeys_erase, alistKeys_erase, h1]
  · rw [e3, e1, alistKeys_erase, alistKeys_erase, h2]
  · rw [e4, e1, alistKeys_erase, alistKeys_erase, h3]
  · rw [e5, e1, alistKeys_erase, alistKeys_erase, h4]
  · rw [e1]
    exact alistKeys_erase_nodup _ _ h5
  · intro k hk
    rw [e1, mem_alistKeys_erase] at hk
    rw [e6]
    exact h6 _ hk.1

theorem matchStep_WF (st : Tracker) (id : ℕ) (c s : ℤ × ℤ)
    (hid : id ∈ alistKeys st.objects) (h : TrackerWF st) :
    TrackerWF (matchStep st id c s) ∧
    alistKeys (matchStep st id c s).objects = alistKeys st.objects := by
  obtain ⟨h1, h2, h3, h4, h5, h6⟩ := h
  have k1 : alistKeys (matchStep st id c s).objects = alistKeys st.objects := by
    rw [matchStep_objects]
    exact alistKeys_set_of_mem _ hid
  refine ⟨⟨?_, ?_, ?_, ?_, ?_, ?_⟩, k1⟩
  · rw [matchStep_disappeared, k1, alistKeys_set_of_mem _ (h1 ▸ hid), h1]
  · rw [matchStep_history, k1, alistKeys_set_of_mem _ (h2 ▸ hid), h2]
  · rw [matchStep_velocities, k1, alistKeys_set_of_mem _ (h3 ▸ hid), h3]
  · rw [matchStep_sizes, k1, alistKeys_set_of_mem _ (h4 ▸ hid), h4]
  · rw [k1]
    exact h5
  · intro k hk
    rw [k1] at hk
    rw [(matchStep_scalars st id c s).1]
    exact h6 _ hk

theorem ageStep_WF (st : Tracker) (id : ℕ)
    (hid : id ∈ alistKeys st.disappeared) (h : TrackerWF st) :
    TrackerWF (ageStep st id) := by
  rw [ageStep_eq]
  obtain ⟨h1, h2, h3, h4, h5, h6⟩ := h
  have hmid : TrackerWF { st with disappeared := alistSet st.disappeared id ((alistGet? st.disappeared id).getD 0 + 1) } := by
    refine ⟨?_, h2, h3, h4, h5, h6⟩
    show alistKeys (alistSet st.disappeared id _) = alistKeys st.objects
    rw [alistKeys_set_of_mem _ hid, h1]
  split
  · exact deregister_WF _ _ hmid
  · exact hmid

theorem ageStep_keys_disappeared (st : Tracker) (i j : ℕ)
    (hi : i ∈ alistKeys st.disappeared) (hj : j ∈ alistKeys st.disappeared)
    (hne : j ≠ i) : j ∈ alistKeys (ageStep st i).disappeared := by
  rw [ageStep_eq]
  split
  · rw [(deregister_fields _ _).2.1, mem_alistKeys_erase]
    exact ⟨by rw [show alistKeys (alistSet st.disappeared i ((alistGet? st.disappeared i).getD 0 + 1)) = alistKeys st.disappeared from alistKeys_set_of_mem _ hi]; exact hj, hne⟩
  · show j ∈ alistKeys (alistSet st.disappeared i _)
    rw [alistKeys_set_of_mem _ hi]
    exact hj

theorem ageIds_WF (ids : List ℕ) (st : Tracker)
    (hsub : ∀ i ∈ ids, i ∈ alistKeys st.disappeared) (hnod : ids.Nodup)
    (h : TrackerWF st) : TrackerWF (ageIds st ids) := by
  induction ids generalizing st with
  | nil => exact h
  | cons i ids ih =>
    have hihd : i ∈ alistKeys st.disappeared := hsub i (List.mem_cons_self i ids)
    refine ih (ageStep st i) ?_ (List.nodup_cons.mp hnod).2 (ageStep_WF st i hihd h)
    intro i2 hi2
    exact ageStep_keys_disappeared st i i2 hihd (hsub i2 (List.mem_cons_of_mem i hi2))
      (fun hc => (List.nodup_cons.mp hnod).1 (hc ▸ hi2))

theorem foldl_matchStep_WF (idOf : ℕ → ℕ) (cOf sOf : ℕ → ℤ × ℤ)
    (ps : List (ℕ × ℕ)) (s0 : Tracker) (hWF : TrackerWF s0)
    (h : ∀ rc ∈ ps, idOf rc.1 ∈ alistKeys s0.objects) :
    TrackerWF (ps.foldl (fun s rc => matchStep s (idOf rc.1) (cOf rc.2) (sOf rc.2)) s0) ∧
    alistKeys (ps.foldl (fun s rc =>
      matchStep s (idOf rc.1) (cOf rc.2) (sOf rc.2)) s0).objects =
      alistKeys s0.objects := by
  induction ps generalizing s0 with
  | nil => exact ⟨hWF, rfl⟩
  | cons p ps ih =>
    rw [List.foldl_cons]
    have hstep := matchStep_WF s0 (idOf p.1) (cOf p.2) (sOf p.2)
      (h p (List.mem_cons_self p ps)) hWF
    have hi := ih (matchStep s0 (idOf p.1) (cOf p.2) (sOf p.2)) hstep.1
      (fun rc hm => hstep.2 ▸ h rc (List.mem_cons_of_mem p hm))
    exact ⟨hi.1, hi.2.trans hstep.2⟩

theorem foldl_register_WF {α : Type} (f g : α → ℤ × ℤ) (L : List α) (st : Tracker)
    (h : TrackerWF st) :
    TrackerWF (L.foldl (fun s a => register s (f a) (g a)) st) := by
  induction L generalizing st with
  | nil => exact h
  | cons b L ih =>
    rw [List.foldl_cons]
    exact ih _ (register_WF st (f b) (g b) h)

theorem mem_updateUnusedRows (st : Tracker) (dets : List ((ℤ × ℤ) × (ℤ × ℤ))) (r : ℕ) :
    r ∈ updateUnusedRows st dets ↔
      r < (updateObjectIds st).length ∧ r ∉ (updateAssigns st dets).map Prod.fst := by
  unfold updateUnusedRows
  rw [List.mem_filter, List.mem_range]
  simp

theorem mem_updateUnusedCols (st : Tracker) (dets : List ((ℤ × ℤ) × (ℤ × ℤ))) (c : ℕ) :
    c ∈ updateUnusedCols st dets ↔
      c < dets.length ∧ c ∉ (updateAssigns st dets).map Prod.snd := by
  unfold updateUnusedCols
  rw [List.mem_filter, List.mem_range]
  simp

theorem updateUnusedIds_nodup (st : Tracker) (dets : List ((ℤ × ℤ) × (ℤ × ℤ)))
    (hnod : (alistKeys st.objects).Nodup) :
    ((updateUnusedRows st dets).map (fun r => (updateObjectIds st).getD r 0)).Nodup := by
  have hrows : (updateUnusedRows st dets).Nodup := by
    unfold updateUnusedRows
    exact List.Nodup.filter _ (List.nodup_range _)
  refine List.Nodup.map_on ?_ hrows
  intro x hx y hy hxy
  have hx2 := (mem_updateUnusedRows st dets x).mp hx
  have hy2 := (mem_updateUnusedRows st dets y).mp hy
  by_contra hne
  exact getD_ne_of_nodup (updateObjectIds st) hnod x y hx2.1 hy2.1 hne hxy

/-- The update method preserves the tracker invariant. -/
theorem update_WF (st : Tracker) (dets : List ((ℤ × ℤ) × (ℤ × ℤ)))
    (h : TrackerWF st) : TrackerWF (update st dets) := by
  by_cases h1 : dets = []
  · subst h1
    rw [update_nil_eq]
    exact ageIds_WF _ st (fun i hi => hi) (h.1 ▸ h.2.2.2.2.1) h
  by_cases h2 : st.objects = []
  · rw [update_register_all_eq st dets h1 h2]
    exact foldl_register_WF _ _ dets st h
  have hrows : ∀ rc ∈ updateAssigns st dets,
      (updateObjectIds st).getD rc.1 0 ∈ alistKeys st.objects := by
    intro rc hm
    exact getD_mem_of_lt _ _ (updateAssigns_row_lt st dets rc hm)
  have hM := foldl_matchStep_WF (fun i => (updateObjectIds st).getD i 0)
    (fun j => (dets.map Prod.fst).getD j (0, 0)) (fun j => (dets.map Prod.snd).getD j (0, 0))
    (updateAssigns st dets) st h hrows
  have hAM : TrackerWF (applyMatches st dets) ∧
      alistKeys (applyMatches st dets).objects = alistKeys st.objects := hM
  by_cases h3 : (updateObjectIds st).length ≥ dets.length
  · rw [update_age_eq st dets h1 h2 h3]
    refine ageIds_WF _ _ ?_ (updateUnusedIds_nodup st dets h.2.2.2.2.1) hAM.1
    intro i hi
    rcases List.mem_map.mp hi with ⟨r, hr, hri⟩
    have hr2 := (mem_updateUnusedRows st dets r).mp hr
    have : i ∈ alistKeys st.objects := hri ▸ getD_mem_of_lt _ _ hr2.1
    rw [hAM.1.1, hAM.2]
    exact this
  · rw [update_register_new_eq st dets h1 h2 h3]
    exact foldl_register_WF _ _ _ _ hAM.1

/-- Claim C10: the five per-identity dictionaries of the tracker always
have identical key sets — the invariant (together with key distinctness
and the freshness bound that makes it inductive) holds initially and is
preserved by `register`, `deregister` and `update`, and under it an
identity is a key of one dictionary exactly when it is a key of all of
them. -/
theorem claim_C10_parallel_key_sets :
    (∀ m : ℕ, ∀ d : ℚ, TrackerWF (initTracker m d)) ∧
    (∀ st : Tracker, TrackerWF st →
       (∀ c s : ℤ × ℤ, TrackerWF (register st c s)) ∧
       (∀ id : ℕ, TrackerWF (deregister st id)) ∧
       (∀ dets : List ((ℤ × ℤ) × (ℤ × ℤ)), TrackerWF (update st dets)) ∧
       (∀ id : ℕ,
          (id ∈ alistKeys st.objects ↔ id ∈ alistKeys st.disappeared) ∧
          (id ∈ alistKeys st.objects ↔ id ∈ alistKeys st.object_history) ∧
          (id ∈ alistKeys st.objects ↔ id ∈ alistKeys st.object_velocities) ∧
          (id ∈ alistKeys st.objects ↔ id ∈ alistKeys st.object_sizes))) := by
  constructor
  · intro m d
    exact ⟨rfl, rfl, rfl, rfl, List.nodup_nil, fun k hk => absurd hk (List.not_mem_nil k)⟩
  · intro st h
    refine ⟨fun c s => register_WF st c s h, fun id => deregister_WF st id h,
      fun dets => update_WF st dets h, fun id => ?_⟩
    rw [h.1, h.2.1, h.2.2.1, h.2.2.2.1]
    exact ⟨Iff.rfl, Iff.rfl, Iff.rfl, Iff.rfl⟩

/-- Witness for claim C10: the invariant holds after registering a
detection into the fresh tracker. -/
theorem claim_C10_witness : TrackerWF (register (initTracker 60 150) (5, 6) (2, 3)) :=
  (claim_C10_parallel_key_sets.2 (initTracker 60 150)
    (claim_C10_parallel_key_sets.1 60 150)).1 (5, 6) (2, 3)

/-- Claim C5: the velocity stored for an identity that the greedy
matching assigns to a detection is the exponential moving average
`0.7 * previous velocity + 0.3 * (new position − old position)`
componentwise, where the old position is the identity's last recorded
history entry before the match. -/
theorem claim_C5_velocity_ema (st : Tracker) (dets : List ((ℤ × ℤ) × (ℤ × ℤ)))
    (r c : ℕ) (hist : List (ℤ × ℤ)) (v : ℚ × ℚ)
    (hne : dets ≠ []) (hobj : st.objects ≠ [])
    (hnodup : (alistKeys st.objects).Nodup)
    (hbound : ∀ k ∈ alistKeys st.objects, k < st.next_object_id)
    (hrc : (r, c) ∈ updateAssigns st dets)
    (hh : alistGet? st.object_history ((updateObjectIds st).getD r 0) = some hist)
    (hlen : hist.length > 0)
    (hv : alistGet? st.object_velocities ((updateObjectIds st).getD r 0) = some v) :
    alistGet? (update st dets).object_velocities ((updateObjectIds st).getD r 0) =
      some (7/10 * v.1 +
              3/10 * ((((dets.map Prod.fst).getD c (0, 0)).1 : ℚ) -
                        ((hist.getLastD (0, 0)).1 : ℚ)),
            7/10 * v.2 +
              3/10 * ((((dets.map Prod.fst).getD c (0, 0)).2 : ℚ) -
                        ((hist.getLastD (0, 0)).2 : ℚ))) := by
  obtain ⟨pre, post, heq⟩ := List.append_of_mem hrc
  have hr := updateAssigns_row_lt st dets (r, c) hrc
  have hfstN : ((pre ++ (r, c) :: post).map Prod.fst).Nodup := by
    rw [← heq]
    exact (greedyAssign_spec (updateCost st dets) st.max_distance (updatePairs st dets)).1
  rw [List.map_append, List.map_cons, List.nodup_append] at hfstN
  obtain ⟨hpreN, hpostN, hdisj⟩ := hfstN
  have hrpre : r ∉ pre.map Prod.fst := fun hc =>
    hdisj hc (List.mem_cons_self r (post.map Prod.fst))
  have hrpost : r ∉ post.map Prod.fst := (List.nodup_cons.mp hpostN).1
  have hidne : ∀ x : ℕ × ℕ, x ∈ updateAssigns st dets → x.1 ≠ r →
      (updateObjectIds st).getD x.1 0 ≠ (updateObjectIds st).getD r 0 := by
    intro x hx hxr
    exact getD_ne_of_nodup _ hnodup x.1 r
      (updateAssigns_row_lt st dets x hx) hr hxr
  have hpre : ∀ x ∈ pre, (updateObjectIds st).getD x.1 0 ≠
      (updateObjectIds st).getD r 0 := by
    intro x hx
    exact hidne x (heq ▸ List.mem_append_left _ hx)
      (fun hc => hrpre (hc ▸ List.mem_map_of_mem Prod.fst hx))
  have hpost : ∀ x ∈ post, (updateObjectIds st).getD x.1 0 ≠
      (updateObjectIds st).getD r 0 := by
    intro x hx
    exact hidne x (heq ▸ List.mem_append_right _ (List.mem_cons_of_mem _ hx))
      (fun hc => hrpost (hc ▸ List.mem_map_of_mem Prod.fst hx))
  have hv2 := foldl_matchStep_velocity (fun i => (updateObjectIds st).getD i 0)
    (fun j => (dets.map Prod.fst).getD j (0, 0)) (fun j => (dets.map Prod.snd).getD j (0, 0))
    pre post (r, c) st hist v hpre hpost hh hlen hv
  have hAM : alistGet? (applyMatches st dets).object_velocities
      ((updateObjectIds st).getD r 0) =
      some (7/10 * v.1 +
              3/10 * ((((dets.map Prod.fst).getD c (0, 0)).1 : ℚ) -
                        ((hist.getLastD (0, 0)).1 : ℚ)),
            7/10 * v.2 +
              3/10 * ((((dets.map Prod.fst).getD c (0, 0)).2 : ℚ) -
                        ((hist.getLastD (0, 0)).2 : ℚ))) := by
    show alistGet? ((updateAssigns st dets).foldl _ st).object_velocities _ = _
    rw [heq]
    exact hv2
  by_cases h3 : (updateObjectIds st).length ≥ dets.length
  · rw [update_age_eq st dets hne hobj h3]
    have hnotmem : (updateObjectIds st).getD r 0 ∉
        (updateUnusedRows st dets).map (fun x => (updateObjectIds st).getD x 0) := by
      intro hc
      rcases List.mem_map.mp hc with ⟨x, hx, hxeq⟩
      have hx2 := (mem_updateUnusedRows st dets x).mp hx
      by_cases hxr : x = r
      · exact hx2.2 (hxr ▸ (heq ▸ List.mem_map_of_mem Prod.fst
          (List.mem_append_right pre (List.mem_cons_self (r, c) post))))
      · exact getD_ne_of_nodup _ hnodup x r hx2.1 hr hxr hxeq
    rw [(ageIds_get_not_mem _ _ _ hnotmem).2.2.2.1]
    exact hAM
  · rw [update_register_new_eq st dets hne hobj h3]
    have hmem : (updateObjectIds st).getD r 0 ∈ alistKeys st.objects :=
      getD_mem_of_lt _ _ hr
    have hlt : (updateObjectIds st).getD r 0 < (applyMatches st dets).next_object_id := by
      have hnext : (applyMatches st dets).next_object_id = st.next_object_id :=
        (foldl_matchStep_scalars (fun i => (updateObjectIds st).getD i 0)
          (fun j => (dets.map Prod.fst).getD j (0, 0))
          (fun j => (dets.map Prod.snd).getD j (0, 0))
          (updateAssigns st dets) st).1
      rw [hnext]
      exact hbound _ hmem
    rw [(foldl_register_get_lt _ _ _ _ _ hlt).2.2.2.1]
    exact hAM

/-! ## Disappearance bookkeeping across whole frames -/

theorem update_nil_max (st : Tracker) :
    (update st []).max_disappeared = st.max_disappeared := by
  rw [update_nil_eq]
  exact (ageIds_scalars _ _).2.1

theorem update_nil_nodup (st : Tracker) (h : (alistKeys st.disappeared).Nodup) :
    (alistKeys (update st []).disappeared).Nodup := by
  rw [update_nil_eq]
  exact ageIds_nodup_keys _ _ h

theorem update_nil_count (st : Tracker) (j d : ℕ)
    (hnod : (alistKeys st.disappeared).Nodup)
    (hd : alistGet? st.disappeared j = some d) (hle : d + 1 ≤ st.max_disappeared) :
    alistGet? (update st []).disappeared j = some (d + 1) := by
  rw [update_nil_eq]
  exact ((ageIds_spec _ st j d hnod (mem_alistKeys_of_get hd) hd).2 hle).1

theorem iterate_nil_count (k : ℕ) (st : Tracker) (j d : ℕ)
    (hnod : (alistKeys st.disappeared).Nodup)
    (hd : alistGet? st.disappeared j = some d) (hk : d + k ≤ st.max_disappeared) :
    alistGet? ((fun s => update s [])^[k] st).disappeared j = some (d + k) ∧
    (alistKeys ((fun s => update s [])^[k] st).disappeared).Nodup ∧
    ((fun s => update s [])^[k] st).max_disappeared = st.max_disappeared := by
  induction k generalizing st d with
  | zero => exact ⟨hd, hnod, rfl⟩
  | succ k ih =>
    rw [Function.iterate_succ_apply]
    have h1 : alistGet? (update st []).disappeared j = some (d + 1) :=
      update_nil_count st j d hnod hd (by omega)
    have h2 := update_nil_nodup st hnod
    have h3 := update_nil_max st
    have hk2 : (d + 1) + k ≤ (update st []).max_disappeared := by
      rw [h3]
      omega
    have := ih (update st []) (d + 1) h2 h1 hk2
    have harith : d + 1 + k = d + (k + 1) := by omega
    rw [harith] at this
    exact ⟨this.1, this.2.1, this.2.2.trans h3⟩

/-- Claim C3, amended: a zero-detection frame increments every
identity's disappeared count by exactly 1 and removes the identity with
all its per-identity state exactly when the new count exceeds
`max_disappeared`; consequently an identity starting at count 0 is
still retained after exactly `max_disappeared` zero-detection frames
and removed after exactly `max_disappeared + 1`.  In a frame with
detections, an unmatched identity is aged the same way only when the
detections do not outnumber the existing identities (the code's
`shape[0] >= shape[1]` branch); when detections outnumber identities an
unmatched identity's count is left unchanged (see the counterexample). -/
theorem claim_C3_amended (st : Tracker) (hnod : (alistKeys st.disappeared).Nodup) :
    (∀ j d, alistGet? st.disappeared j = some d →
       (d + 1 > st.max_disappeared →
          alistGet? (update st []).objects j = none ∧
          alistGet? (update st []).disappeared j = none ∧
          alistGet? (update st []).object_history j = none ∧
          alistGet? (update st []).object_velocities j = none ∧
          alistGet? (update st []).object_sizes j = none) ∧
       (d + 1 ≤ st.max_disappeared →
          alistGet? (update st []).disappeared j = some (d + 1))) ∧
    (∀ j, alistGet? st.disappeared j = some 0 →
       alistGet? ((fun s => update s [])^[st.max_disappeared] st).disappeared j =
         some st.max_disappeared ∧
       alistGet? ((fun s => update s [])^[st.max_disappeared + 1] st).objects j = none ∧
       alistGet? ((fun s => update s [])^[st.max_disappeared + 1] st).disappeared j =
         none) ∧
    (∀ dets r d, dets ≠ [] → st.objects ≠ [] →
       (updateObjectIds st).length ≥ dets.length →
       (alistKeys st.objects).Nodup →
       r < (updateObjectIds st).length →
       r ∉ (updateAssigns st dets).map Prod.fst →
       alistGet? st.disappeared ((updateObjectIds st).getD r 0) = some d →
       ((d + 1 ≤ st.max_disappeared →
           alistGet? (update st dets).disappeared ((updateObjectIds st).getD r 0) =
             some (d + 1)) ∧
        (d + 1 > st.max_disappeared →
           alistGet? (update st dets).objects ((updateObjectIds st).getD r 0) = none ∧
           alistGet? (update st dets).disappeared ((updateObjectIds st).getD r 0) =
             none))) := by
  refine ⟨?_, ?_, ?_⟩
  · intro j d hd
    rw [update_nil_eq]
    have hspec := ageIds_spec _ st j d hnod (mem_alistKeys_of_get hd) hd
    exact ⟨hspec.1, fun hle => (hspec.2 hle).1⟩
  · intro j hd
    have hiter := iterate_nil_count st.max_disappeared st j 0 hnod hd (by omega)
    rw [Nat.zero_add] at hiter
    refine ⟨hiter.1, ?_, ?_⟩ <;>
    · rw [Function.iterate_succ_apply', update_nil_eq]
      have hspec := ageIds_spec _ _ j st.max_disappeared hiter.2.1
        (mem_alistKeys_of_get hiter.1) hiter.1
      have hgt : st.max_disappeared + 1 >
          ((fun s => update s [])^[st.max_disappeared] st).max_disappeared := by
        rw [hiter.2.2]
        omega
      first
      | exact (hspec.1 hgt).1
      | exact (hspec.1 hgt).2.1
  · intro dets r d hne hobj hge hkobj hr hun hd
    rw [update_age_eq st dets hne hobj hge]
    have hassign : ∀ rc ∈ updateAssigns st dets,
        (updateObjectIds st).getD rc.1 0 ≠ (updateObjectIds st).getD r 0 := by
      intro rc hm
      refine getD_ne_of_nodup _ hkobj rc.1 r (updateAssigns_row_lt st dets rc hm) hr ?_
      intro hc
      exact hun (hc ▸ List.mem_map_of_mem Prod.fst hm)
    have hAM : alistGet? (applyMatches st dets).disappeared
          ((updateObjectIds st).getD r 0) = some d ∧
        (applyMatches st dets).max_disappeared = st.max_disappeared := by
      constructor
      · exact ((foldl_matchStep_get_ne (fun i => (updateObjectIds st).getD i 0)
          (fun j => (dets.map Prod.fst).getD j (0, 0))
          (fun j => (dets.map Prod.snd).getD j (0, 0))
          (updateAssigns st dets) st ((updateObjectIds st).getD r 0) hassign).2.1).trans hd
      · exact (foldl_matchStep_scalars (fun i => (updateObjectIds st).getD i 0)
          (fun j => (dets.map Prod.fst).getD j (0, 0))
          (fun j => (dets.map Prod.snd).getD j (0, 0)) (updateAssigns st dets) st).2.1
    have hmemU : (updateObjectIds st).getD r 0 ∈
        (updateUnusedRows st dets).map (fun x => (updateObjectIds st).getD x 0) :=
      List.mem_map_of_mem _ ((mem_updateUnusedRows st dets r).mpr ⟨hr, hun⟩)
    have hspec := ageIds_spec _ (applyMatches st dets) ((updateObjectIds st).getD r 0) d
      (updateUnusedIds_nodup st dets hkobj) hmemU hAM.1
    rw [hAM.2] at hspec
    exact ⟨fun hle => (hspec.2 hle).1, fun hgt => ⟨(hspec.1 hgt).1, (hspec.1 hgt).2.1⟩⟩

/-- Counterexample to claim C3 as stated: with one identity and two
detections whose costs both exceed `max_distance` (squared costs
1000000 and 4000000 against 150² = 22500), the identity is matched to
no detection in the frame, yet its disappeared count stays 0 instead of
growing by 1 — the source's unmatched-row ageing loop only runs when
identities are at least as many as detections. -/
theorem claim_C3_counterexample :
    exampleTracker.max_distance ^ 2 <
      updateCost exampleTracker [(((1000 : ℤ), (0 : ℤ)), ((10 : ℤ), (10 : ℤ))),
        (((2000 : ℤ), (0 : ℤ)), ((10 : ℤ), (10 : ℤ)))] 0 0 ∧
    exampleTracker.max_distance ^ 2 <
      updateCost exampleTracker [(((1000 : ℤ), (0 : ℤ)), ((10 : ℤ), (10 : ℤ))),
        (((2000 : ℤ), (0 : ℤ)), ((10 : ℤ), (10 : ℤ)))] 0 1 ∧
    updateObjectIds exampleTracker = [0] ∧
    alistGet? (update exampleTracker [(((1000 : ℤ), (0 : ℤ)), ((10 : ℤ), (10 : ℤ))),
      (((2000 : ℤ), (0 : ℤ)), ((10 : ℤ), (10 : ℤ)))]).disappeared 0 = some 0 := by
  refine ⟨?_, ?_, rfl, ?_⟩ <;>
    norm_num [update, updateAssigns, greedyAssign, greedyStep, updatePairs, updateRows,
      updateRowMin, updateObjectIds, updateCost, enhanced_distanceSq, predict_position,
      size_similarity, euclidSq, truncQ, listMinQ, argminQ, argminAux, sortByKey,
      insertByKey, alistKeys, alistGet?, alistSet, alistErase, ageIds, ageStep, matchStep,
      calculate_velocity, applyMatches, updateUnusedRows, updateUnusedCols, deregister,
      register, exampleTracker, List.find?, List.filter, List.range_succ, List.range_zero,
      List.foldl_cons, List.foldl_nil, List.foldr_cons, List.foldr_nil]

/-- Witness for claim C3's amended statement: a zero-detection frame
takes identity 0's disappeared count from 0 to 1. -/
theorem claim_C3_witness :
    alistGet? (update exampleTracker []).disappeared 0 = some (0 + 1) :=
  (((claim_C3_amended exampleTracker (by decide)).1 0 0 (by decide)).2 (by decide))

/-- Claim C1, amended: with nonempty detections and identities, a
detection whose cost to every identity exceeds `max_distance` (that is,
fails the threshold test for every row) is registered as a new identity
only when the detections strictly outnumber the existing identities; in
a frame where identities are at least as many as detections no new
identity is registered at all, whatever the costs (the source only
registers unmatched detections in its `shape[0] < shape[1]` branch). -/
theorem claim_C1_amended (st : Tracker) (dets : List ((ℤ × ℤ) × (ℤ × ℤ)))
    (hne : dets ≠ []) (hobj : st.objects ≠ []) :
    ((updateObjectIds st).length ≥ dets.length →
       (update st dets).next_object_id = st.next_object_id) ∧
    (dets.length > (updateObjectIds st).length →
       ∀ j < dets.length,
         (∀ i < (updateObjectIds st).length,
            ¬(0 ≤ st.max_distance ∧ updateCost st dets i j ≤ st.max_distance ^ 2)) →
         ∃ id, st.next_object_id ≤ id ∧
           alistGet? (update st dets).objects id =
             some ((dets.map Prod.fst).getD j (0, 0))) := by
  constructor
  · intro hge
    rw [update_age_eq st dets hne hobj hge]
    have h1 := (ageIds_scalars ((updateUnusedRows st dets).map
      (fun r => (updateObjectIds st).getD r 0)) (applyMatches st dets)).1
    have h2 : (applyMatches st dets).next_object_id = st.next_object_id :=
      (foldl_matchStep_scalars (fun i => (updateObjectIds st).getD i 0)
        (fun j => (dets.map Prod.fst).getD j (0, 0))
        (fun j => (dets.map Prod.snd).getD j (0, 0)) (updateAssigns st dets) st).1
    exact h1.trans h2
  · intro hlt j hj hfar
    rw [update_register_new_eq st dets hne hobj (by omega)]
    have hjun : j ∈ updateUnusedCols st dets := by
      refine (mem_updateUnusedCols st dets j).mpr ⟨hj, ?_⟩
      intro hc
      rcases List.mem_map.mp hc with ⟨rc, hrc, hrcj⟩
      have hcost := ((greedyAssign_spec (updateCost st dets) st.max_distance
        (updatePairs st dets)).2.2 rc hrc).2
      have hrow := updateAssigns_row_lt st dets rc hrc
      exact hfar rc.1 hrow (hrcj ▸ hcost)
    obtain ⟨id, hid, hget⟩ := foldl_register_mem
      (fun c => (dets.map Prod.fst).getD c (0, 0))
      (fun c => (dets.map Prod.snd).getD c (0, 0))
      (updateUnusedCols st dets) (applyMatches st dets) j hjun
    refine ⟨id, ?_, hget⟩
    have h2 : (applyMatches st dets).next_object_id = st.next_object_id :=
      (foldl_matchStep_scalars (fun i => (updateObjectIds st).getD i 0)
        (fun j => (dets.map Prod.fst).getD j (0, 0))
        (fun j => (dets.map Prod.snd).getD j (0, 0)) (updateAssigns st dets) st).1
    rw [h2] at hid
    exact hid

/-- Counterexample to claim C1 as stated: one identity, one detection
whose squared cost 1000000 exceeds 150² = 22500, yet after the frame no
new identity exists — `next_object_id` is unchanged and identity 0 is
still the only key — because with `shape[0] >= shape[1]` the source
never registers unmatched detections. -/
theorem claim_C1_counterexample :
    exampleTracker.max_distance ^ 2 <
      updateCost exampleTracker [(((1000 : ℤ), (0 : ℤ)), ((10 : ℤ), (10 : ℤ)))] 0 0 ∧
    updateObjectIds exampleTracker = [0] ∧
    (update exampleTracker
      [(((1000 : ℤ), (0 : ℤ)), ((10 : ℤ), (10 : ℤ)))]).next_object_id =
      exampleTracker.next_object_id ∧
    alistKeys (update exampleTracker
      [(((1000 : ℤ), (0 : ℤ)), ((10 : ℤ), (10 : ℤ)))]).objects = [0] := by
  refine ⟨?_, rfl, ?_, ?_⟩ <;>
    norm_num [update, updateAssigns, greedyAssign, greedyStep, updatePairs, updateRows,
      updateRowMin, updateObjectIds, updateCost, enhanced_distanceSq, predict_position,
      size_similarity, euclidSq, truncQ, listMinQ, argminQ, argminAux, sortByKey,
      insertByKey, alistKeys, alistGet?, alistSet, alistErase, ageIds, ageStep, matchStep,
      calculate_velocity, applyMatches, updateUnusedRows, updateUnusedCols, deregister,
      register, exampleTracker, List.find?, List.filter, List.range_succ, List.range_zero,
      List.foldl_cons, List.foldl_nil, List.foldr_cons, List.foldr_nil]

/-- Witness for claim C1's amended statement: two far detections against
one identity; detection 0 (centroid (1000, 0)) is registered under a
fresh identity. -/
theorem claim_C1_witness :
    ∃ id, exampleTracker.next_object_id ≤ id ∧
      alistGet? (update exampleTracker [(((1000 : ℤ), (0 : ℤ)), ((10 : ℤ), (10 : ℤ))),
        (((2000 : ℤ), (0 : ℤ)), ((10 : ℤ), (10 : ℤ)))]).objects id =
        some ((([(((1000 : ℤ), (0 : ℤ)), ((10 : ℤ), (10 : ℤ))),
          (((2000 : ℤ), (0 : ℤ)), ((10 : ℤ), (10 : ℤ)))]).map Prod.fst).getD 0 (0, 0)) :=
  (claim_C1_amended exampleTracker
    [(((1000 : ℤ), (0 : ℤ)), ((10 : ℤ), (10 : ℤ))),
     (((2000 : ℤ), (0 : ℤ)), ((10 : ℤ), (10 : ℤ)))] (by decide) (by decide)).2
    (by decide) 0 (by decide)
    (by
      intro i hi
      have hi0 : i = 0 := by
        revert hi
        norm_num [updateObjectIds, alistKeys, exampleTracker]
      subst hi0
      norm_num [updateCost, enhanced_distanceSq, predict_position, size_similarity,
        euclidSq, truncQ, updateObjectIds, alistKeys, alistGet?, exampleTracker,
        List.find?])

/-- Witness for claim C5: identity 0 at the origin with zero velocity is
matched to a detection at (10, 0); its stored velocity becomes
`0.7 * 0 + 0.3 * 10 = 3` on the x axis. -/
theorem claim_C5_witness :
    alistGet? (update exampleTracker
      [(((10 : ℤ), (0 : ℤ)), ((10 : ℤ), (10 : ℤ)))]).object_velocities
      ((updateObjectIds exampleTracker).getD 0 0) = some ((3 : ℚ), (0 : ℚ)) :=
  (claim_C5_velocity_ema exampleTracker [(((10 : ℤ), (0 : ℤ)), ((10 : ℤ), (10 : ℤ)))]
    0 0 [((0 : ℤ), (0 : ℤ))] ((0 : ℚ), (0 : ℚ)) (by decide) (by decide) (by decide)
    (by decide)
    (by
      norm_num [updateAssigns, greedyAssign, greedyStep, updatePairs, updateRows,
        updateRowMin, updateObjectIds, updateCost, enhanced_distanceSq, predict_position,
        size_similarity, euclidSq, truncQ, listMinQ, argminQ, argminAux, sortByKey,
        insertByKey, alistKeys, alistGet?, exampleTracker, List.find?, List.range_succ,
        List.range_zero, List.foldl_cons, List.foldl_nil, List.foldr_cons, List.foldr_nil])
    (by decide) (by decide) (by decide)).trans
    (by norm_num)
